import Mathlib

/-!
Verification of the `rust-mvp` IoT control-loop repository.

This file shallowly embeds the parts of the source needed by the claims:
the `Datum`/`Value`/`Unit`/`Kind` data model and its JSON serialisation
(crate `datum`), the HTTP-shaped `Message` codec (crate `device`), the
`Thermo5000` command type (crate `actuator_temperature`), the default
assessor (crate `controller`), the Environment request handlers
(crate `environment`), the temperature Actuator handler, and the
bounded-deque insertion steps of the Sensor and Controller pollers.

Modelling conventions:
  - Rust `String`/`str` values are `List Char` (`Str`).
  - Rust `f32` values are modelled as `ℚ`; the standard library's float
    `Display`/`FromStr` (external to the repository) are passed in as
    function parameters, with their round-trip and character-set
    properties taken as hypotheses where a theorem needs them.
  - `chrono::DateTime<Utc>` instants are modelled as `ℤ` (an abstract
    millisecond count); the RFC 3339 rendering and parsing provided by
    the external `chrono` crate are likewise passed in as parameters.
  - `HashMap` values are association lists; `Message` headers are kept
    sorted by key (the canonical form produced by sorted serialisation).
  - Rust panics (`unwrap` on `None`, `assert_eq!`, `unimplemented!`) are
    modelled as explicit error results.
-/

set_option maxRecDepth 8000

namespace Mvp

/-- Rust strings are modelled as lists of characters. -/
abbrev Str := List Char

/-- Converts a Lean string literal to the `Str` model. -/
def str (s : String) : Str := s.data

/-- The left-brace character, `U+007B`. -/
def lbrace : Char := Char.ofNat 123

/-- The right-brace character, `U+007D`. -/
def rbrace : Char := Char.ofNat 125

/-- Whitespace test used by Rust's `trim` / `is_whitespace` on the
character sets occurring in this codebase (ASCII space, tab, CR, LF). -/
def isWs (c : Char) : Bool := c = ' ' || c = '\t' || c = '\r' || c = '\n'

/-- Decides whether `p` is a prefix of `s` (Rust `str::starts_with`). -/
def hasPre : Str → Str → Bool
  | [], _ => true
  | _ :: _, [] => false
  | p :: ps, c :: cs => p = c && hasPre ps cs

theorem hasPre_le (p s : Str) (h : hasPre p s = true) : p.length ≤ s.length := by
  induction p generalizing s with
  | nil => simp
  | cons a as ih =>
    cases s with
    | nil => simp [hasPre] at h
    | cons b bs =>
      simp only [hasPre, Bool.and_eq_true] at h
      simpa using ih bs h.2

/-- Rust `str::trim_start_matches(pat)`: repeatedly strips the pattern
from the front while it matches. -/
def stripAllPre (pat : Str) (s : Str) : Str :=
  if h : pat ≠ [] ∧ hasPre pat s then stripAllPre pat (s.drop pat.length)
  else s
termination_by s.length
decreasing_by
  have h1 : pat.length ≤ s.length := hasPre_le pat s h.2
  have h2 : 0 < pat.length := List.length_pos.mpr h.1
  simp only [List.length_drop]
  omega

/-- Rust `str::trim_end_matches(ch)` for a single-character pattern:
strips every trailing occurrence of the character. -/
def stripAllSufC (ch : Char) (s : Str) : Str :=
  (s.reverse.dropWhile (fun c => c = ch)).reverse

/-- Rust `str::trim_start_matches(ch)` for a single-character pattern:
strips every leading occurrence of the character. -/
def stripAllPreC (ch : Char) (s : Str) : Str :=
  s.dropWhile (fun c => c = ch)

/-- Rust `str::trim_end_matches(pat)`: repeatedly strips the pattern from
the end while it matches. -/
def stripAllSuf (pat : Str) (s : Str) : Str :=
  (stripAllPre pat.reverse s.reverse).reverse

/-- Rust `str::split(sep)` for a character separator. The result is
always nonempty and the separators are not included. -/
def splitChar (sep : Char) : Str → List Str
  | [] => [[]]
  | c :: rest =>
    let r := splitChar sep rest
    if c = sep then [] :: r
    else
      match r with
      | h :: t => (c :: h) :: t
      | [] => [[c]]

/-- Rust `str::split_once(pat)`: splits at the first occurrence of the
pattern, which is not included in either part. -/
def splitOnce (pat : Str) : Str → Option (Str × Str)
  | [] => if pat = [] then some ([], []) else none
  | c :: cs =>
    if hasPre pat (c :: cs) then some ([], (c :: cs).drop pat.length)
    else
      match splitOnce pat cs with
      | some (l, r) => some (c :: l, r)
      | none => none

/-- Strips leading whitespace (half of Rust `str::trim`). -/
def trimStart (s : Str) : Str := s.dropWhile isWs

/-- Strips trailing whitespace (half of Rust `str::trim`). -/
def trimEnd (s : Str) : Str := (s.reverse.dropWhile isWs).reverse

/-- Rust `str::trim`. -/
def trimStr (s : Str) : Str := trimStart (trimEnd s)

/-- Number of bytes in the UTF-8 encoding of a character. -/
def charBytes (c : Char) : ℕ :=
  if c.toNat < 0x80 then 1
  else if c.toNat < 0x800 then 2
  else if c.toNat < 0x10000 then 3
  else 4

/-- Number of bytes in the UTF-8 encoding of a string (Rust `str::len`). -/
def utf8Len (s : Str) : ℕ := (s.map charBytes).sum

/-- Helper for `takeBytes`: structural recursion over the stream. -/
def takeBytesGo : Str → ℕ → Option (Str × Str)
  | s, n =>
    if n = 0 then some ([], s)
    else
      match s with
      | [] => none
      | c :: rest =>
        if charBytes c ≤ n then
          (takeBytesGo rest (n - charBytes c)).map (fun p => (c :: p.1, p.2))
        else none

/-- Rust `Read::read_exact` into a buffer of `n` bytes followed by UTF-8
decoding: consumes characters worth exactly `n` bytes, failing when the
stream ends early or `n` falls inside a character. -/
def takeBytes (n : ℕ) (s : Str) : Option (Str × Str) := takeBytesGo s n

/-- Decimal digit test (Rust `char::is_ascii_digit`). -/
def isDigit (c : Char) : Bool := '0' ≤ c && c ≤ '9'

/-- The numeric value of a list of decimal digits. -/
def digitsVal (s : Str) : ℕ := s.foldl (fun a c => 10 * a + (c.toNat - 48)) 0

/-- The decimal digit character for `n < 10`. -/
def digitChar (n : ℕ) : Char := Char.ofNat (48 + n)

/-- Decimal rendering of a natural number (Rust `usize`/`u*` `Display`). -/
def natToStr (n : ℕ) : Str :=
  if h : n < 10 then [digitChar n]
  else natToStr (n / 10) ++ [digitChar (n % 10)]
termination_by n
decreasing_by
  exact Nat.div_lt_self (by omega) (by omega)

/-- Rust `str::parse::<usize>()`: all characters must be decimal digits.
(Leading `+` is accepted by Rust; it never occurs on the inputs modelled
here and is omitted.) -/
def natParse (s : Str) : Option ℕ :=
  if s ≠ [] && s.all isDigit then some (digitsVal s) else none

/-- Decimal rendering of an `i32` value (Rust `i32` `Display`). -/
def intToStr (z : ℤ) : Str :=
  if z < 0 then '-' :: natToStr z.natAbs else natToStr z.natAbs

/-- Rust `str::parse::<i32>()`: optional sign, decimal digits, and an
`i32` range check. -/
def i32Parse (s : Str) : Option ℤ :=
  let sign : ℤ := if s.head? = some '-' then -1 else 1
  let digs : Str :=
    if s.head? = some '+' || s.head? = some '-' then s.tail else s
  if digs ≠ [] && digs.all isDigit then
    let z : ℤ := sign * (digitsVal digs : ℤ)
    if -(2 ^ 31) ≤ z ∧ z < 2 ^ 31 then some z else none
  else none

/-- Rust `BufRead::read_line`: reads up to and including the first `\n`
(or to the end of the stream), returning the line and the rest. -/
def readLine : Str → Str × Str
  | [] => ([], [])
  | c :: rest =>
    if c = '\n' then ([c], rest)
    else
      let (l, r) := readLine rest
      (c :: l, r)

/-- `datum::value::Value`: the raw value stored in a `Datum`.
`f32` is modelled as `ℚ`, `i32` as `ℤ` (range side conditions appear in
the theorems that need them). -/
inductive Value where
  | bool (b : Bool)
  | float (q : ℚ)
  | int (z : ℤ)
deriving DecidableEq

/-- `Display for Value`. `fd` stands for the Rust standard library's
`f32` `Display`; on top of it the source forces serialised floats to
contain a decimal point by appending `".0"` when none is present. -/
def Value.render (fd : ℚ → Str) : Value → Str
  | .bool b => if b then str "true" else str "false"
  | .float q =>
    let s := fd q
    if s.contains '.' then s else s ++ str ".0"
  | .int z => intToStr z

/-- `Value::parse`: tries `bool`, then `i32`, then `f32` (`fp` stands for
the standard library's `f32` `FromStr`). -/
def Value.parse (fp : Str → Option ℚ) (s : Str) : Except Str Value :=
  if s = str "true" then .ok (.bool true)
  else if s = str "false" then .ok (.bool false)
  else
    match i32Parse s with
    | some z => .ok (.int z)
    | none =>
      match fp s with
      | some q => .ok (.float q)
      | none => .error (str "cannot parse \x27" ++ s ++ str "\x27 as a Value")

/-- `datum::unit::Unit`. -/
inductive Unit where
  | unitless
  | poweredOn
  | degreesC
deriving DecidableEq

/-- `Display for Unit`. -/
def Unit.render : Unit → Str
  | .unitless => []
  | .poweredOn => str "⏼"
  | .degreesC => str "°C"

/-- `Unit::parse`. -/
def Unit.parse (s : Str) : Except Str Unit :=
  if s = [] then .ok .unitless
  else if s = str "⏼" then .ok .poweredOn
  else if s = str "°C" then .ok .degreesC
  else .error (str "cannot parse \x27" ++ s ++ str "\x27 as a Unit")

/-- `datum::kind::Kind`. -/
inductive Kind where
  | bool
  | float
  | int
deriving DecidableEq

/-- `Kind::parse`. -/
def Kind.parse (s : Str) : Except Str Kind :=
  if s = str "bool" then .ok .bool
  else if s = str "float" then .ok .float
  else if s = str "int" then .ok .int
  else .error (str "cannot parse DatumValueType from: " ++ s)

/-- `device::model::Model`. -/
inductive Model where
  | controller
  | environment
  | unsupported
  | thermo5000
deriving DecidableEq

/-- `Display for Model`. -/
def Model.render : Model → Str
  | .controller => str "controller"
  | .environment => str "environment"
  | .unsupported => str "unsupported"
  | .thermo5000 => str "thermo5000"

/-- `Model::parse`. -/
def Model.parse (s : Str) : Except Str Model :=
  if s = str "controller" then .ok .controller
  else if s = str "environment" then .ok .environment
  else if s = str "unsupported" then .ok .unsupported
  else if s = str "thermo5000" then .ok .thermo5000
  else .error (str "unknown Model \x27" ++ s ++ str "\x27")

/-- `device::id::Id`: an opaque string. -/
abbrev Id := Str

/-- `actuator_temperature::command::Command` (the `Thermo5000` commands). -/
inductive Command where
  | coolBy (q : ℚ)
  | heatBy (q : ℚ)
deriving DecidableEq

/-- `Display for Command`: the JSON form with the variant name and the
plain `f32` rendering of the value. -/
def Command.render (fd : ℚ → Str) : Command → Str
  | .coolBy q =>
    [lbrace] ++ str "\"name\":\"CoolBy\",\"value\":\"" ++ fd q ++ ['"', rbrace]
  | .heatBy q =>
    [lbrace] ++ str "\"name\":\"HeatBy\",\"value\":\"" ++ fd q ++ ['"', rbrace]

/-- `Command::parse`: removes whitespace, strips the outer braces, splits
on `,`, and extracts the `name` and `value` fields by trimming their
literal prefixes and trailing quotes. -/
def Command.parse (fp : Str → Option ℚ) (s : Str) : Except Str Command :=
  let original := s
  let s1 := s.filter (fun c => !(isWs c))
  let s2 := stripAllSufC rbrace (stripAllPreC lbrace s1)
  match splitChar ',' s2 with
  | n :: v :: _ =>
    let name := stripAllSufC '"' (stripAllPre (str "\"name\":\"") n)
    let value := stripAllSufC '"' (stripAllPre (str "\"value\":\"") v)
    if name = str "CoolBy" then
      match fp value with
      | some q => .ok (.coolBy q)
      | none => .error (str "cannot parse \x27" ++ value ++ str "\x27 as f32")
    else if name = str "HeatBy" then
      match fp value with
      | some q => .ok (.heatBy q)
      | none => .error (str "cannot parse \x27" ++ value ++ str "\x27 as f32")
    else .error (str "cannot parse \x27" ++ original ++ str "\x27 as Command")
  | _ => .error (str "cannot parse \x27" ++ original ++ str "\x27 as Command")

/-- `datum::Datum`: a value, a unit, and a timestamp (a `chrono`
`DateTime<Utc>` instant, modelled as an abstract integer). -/
structure Datum where
  value : Value
  unit : Unit
  timestamp : ℤ
deriving DecidableEq

/-- `Datum::new`. -/
def Datum.new (value : Value) (unit : Unit) (timestamp : ℤ) : Datum :=
  ⟨value, unit, timestamp⟩

/-- `Display for Datum`: the JSON object with the rendered value, unit
and RFC 3339 timestamp (`td` stands for `chrono`'s `to_rfc3339`). -/
def Datum.render (fd : ℚ → Str) (td : ℤ → Str) (d : Datum) : Str :=
  [lbrace] ++ str "\"value\":\"" ++ d.value.render fd
    ++ str "\",\"unit\":\"" ++ d.unit.render
    ++ str "\",\"timestamp\":\"" ++ td d.timestamp
    ++ ['"', rbrace]

/-- `Datum::parse`: removes whitespace, strips the outer braces, splits
on `,`, and parses the three fields after trimming their literal
prefixes and trailing quotes (`tp` stands for `chrono`'s RFC 3339
parser, whose error text is not modelled). -/
def Datum.parse (fp : Str → Option ℚ) (tp : Str → Option ℤ) (s : Str) :
    Except Str Datum :=
  let original := s
  let s1 := s.filter (fun c => !(isWs c))
  let s2 := stripAllSufC rbrace (stripAllPreC lbrace s1)
  match splitChar ',' s2 with
  | v :: u :: t :: _ =>
    let value := Value.parse fp
      (stripAllSufC '"' (stripAllPre (str "\"value\":\"") v))
    let unit := Unit.parse
      (stripAllSufC '"' (stripAllPre (str "\"unit\":\"") u))
    let ts := tp (stripAllSufC '"' (stripAllPre (str "\"timestamp\":\"") t))
    match value, unit, ts with
    | .ok value, .ok unit, some ts => .ok (Datum.new value unit ts)
    | .error msg, _, _ => .error msg
    | _, .error msg, _ => .error msg
    | _, _, none => .error (str "bad timestamp")
  | _ =>
    .error (str "\x27" ++ original
      ++ str "\x27 is not formatted like a serialized Datum")

/-- Byte-lexicographic (equivalently codepoint-lexicographic) strict
order on strings, Rust's `Ord for String`. -/
def strLtB : Str → Str → Bool
  | [], [] => false
  | [], _ :: _ => true
  | _ :: _, [] => false
  | a :: as, b :: bs => if a = b then strLtB as bs else decide (a.toNat < b.toNat)

/-- Header maps (`HashMap<String, String>`) are modelled as association
lists kept sorted by key, the canonical order in which the codec
serialises them. -/
abbrev Headers := List (Str × Str)

/-- `HashMap::insert`: replaces the value under an existing key, or adds
the pair (at its sorted position in the canonical form). -/
def hInsert (k v : Str) : Headers → Headers
  | [] => [(k, v)]
  | (k', v') :: rest =>
    if k = k' then (k, v) :: rest
    else if strLtB k k' then (k, v) :: (k', v') :: rest
    else (k', v') :: hInsert k v rest

/-- `HashMap::get`. -/
def hLookup (k : Str) : Headers → Option Str
  | [] => none
  | (k', v') :: rest => if k = k' then some v' else hLookup k rest

/-- Insertion sort of header pairs by the order Rust's `sort` uses on
`(&String, &String)` pairs (lexicographic; keys are unique in a map, so
this is a sort by key). -/
def sortPairsInsert (p : Str × Str) : Headers → Headers
  | [] => [p]
  | q :: rest =>
    if strLtB p.1 q.1 || (p.1 = q.1 && !(strLtB q.2 p.2)) then p :: q :: rest
    else q :: sortPairsInsert p rest

/-- Sorts header pairs (the codec sorts headers before serialising). -/
def sortPairs : Headers → Headers
  | [] => []
  | p :: rest => sortPairsInsert p (sortPairs rest)

/-- `device::message::Message`: a start line, headers, and an optional
body. -/
structure Message where
  startLine : Str
  headers : Headers
  body : Option Str
deriving DecidableEq

/-- `Message::new`: always inserts the default `Content-Type` header. -/
def Message.new (startLine : Str) (headers : Headers) (body : Option Str) :
    Message :=
  ⟨startLine, hInsert (str "Content-Type") (str "text/json; charset=utf-8") headers, body⟩

/-- `Message::header`. -/
def Message.header (m : Message) (k : Str) : Option Str := hLookup k m.headers

/-- `Message::request` (private constructor behind `request_get` and
`request_post`). -/
def Message.request (method url : Str) : Message :=
  Message.new (method ++ [' '] ++ url ++ str " HTTP/1.1") [] none

/-- `Message::request_get`. -/
def Message.requestGet (url : Str) : Message := Message.request (str "GET") url

/-- `Message::request_post`. -/
def Message.requestPost (url : Str) : Message := Message.request (str "POST") url

/-- `Message::respond_ok` (`HTTP/1.1 200 OK`). -/
def Message.respondOk : Message := Message.new (str "HTTP/1.1 200 OK") [] none

/-- `Message::respond_bad_request` (`HTTP/1.1 400 Bad Request`). -/
def Message.respondBadRequest : Message :=
  Message.new (str "HTTP/1.1 400 Bad Request") [] none

/-- `Message::respond_not_found` (`HTTP/1.1 404 Not Found`). -/
def Message.respondNotFound : Message :=
  Message.new (str "HTTP/1.1 404 Not Found") [] none

/-- `Message::respond_not_implemented` (`HTTP/1.1 501 Not Implemented`). -/
def Message.respondNotImplemented : Message :=
  Message.new (str "HTTP/1.1 501 Not Implemented") [] none

/-- `Message::with_headers`: inserts each given pair. -/
def Message.withHeaders (m : Message) (hs : Headers) : Message :=
  { m with headers := hs.foldl (fun a kv => hInsert kv.1 kv.2 a) m.headers }

/-- `Message::with_body`: sets the body and its `Content-Length` (the
UTF-8 byte length of the body). -/
def Message.withBody (m : Message) (b : Str) : Message :=
  { m with
    headers := hInsert (str "Content-Length") (natToStr (utf8Len b)) m.headers
    body := some b }

/-- Joins strings with a separator (Rust `Vec::join`). -/
def joinSep (sep : Str) : List Str → Str
  | [] => []
  | [x] => x
  | x :: y :: rest => x ++ sep ++ joinSep sep (y :: rest)

/-- `Display for Message` (= `Message::write`): start line, headers
sorted by key, a blank line, and the body (when present) framed by CRLF
pairs. -/
def Message.write (m : Message) : Str :=
  let headerLines :=
    (sortPairs m.headers).map (fun kv => kv.1 ++ str ": " ++ kv.2)
  let headersStr := joinSep (str "\r\n") headerLines ++ str "\r\n"
  let bodyStr :=
    match m.body with
    | some b => str "\r\n" ++ b ++ str "\r\n"
    | none => []
  trimStr m.startLine ++ str "\r\n" ++ headersStr ++ bodyStr ++ str "\r\n"

/-- Header-reading loop of `Message::read_from_buffer`, with an explicit
fuel argument bounding the number of iterations (each iteration consumes
at least one character, so `s.length` fuel is always enough). Reads lines
until a line of at most 2 bytes (the blank line, or the stream end);
lines without a `": "` separator are skipped. -/
def readHeadersGo : ℕ → Str → Headers → Headers × Str
  | 0, s, acc => (acc, s)
  | fuel + 1, s, acc =>
    let (line, rest) := readLine s
    if 2 < utf8Len line then
      match splitOnce (str ": ") line with
      | some kv => readHeadersGo fuel rest (hInsert (trimStr kv.1) (trimStr kv.2) acc)
      | none => readHeadersGo fuel rest acc
    else (acc, rest)

/-- `Message::read_from_buffer`: start line, headers, then a body of
exactly `Content-Length` bytes when that header is present. `none`
covers both the unreachable first-line read failure and the panics on a
malformed `Content-Length` or a short body. -/
def Message.read (s : Str) : Option Message :=
  let (first, rest) := readLine s
  let (headers, rest2) := readHeadersGo rest.length rest []
  match hLookup (str "Content-Length") headers with
  | none => some (Message.new (trimStr first) headers none)
  | some lenStr =>
    match natParse lenStr with
    | none => none
    | some n =>
      match takeBytes n rest2 with
      | none => none
      | some (b, _) => some (Message.new (trimStr first) headers (some b))

/-- `Device::handler_failure`: a `400 Bad Request` response carrying the
message as body. -/
def handlerFailure (msg : Str) : Message :=
  Message.respondBadRequest.withBody msg

/-- The two panics the default `Thermo5000` assessor can hit:
`datum.get_as_float().unwrap()` on a non-`Float` value, and
`assert_eq!(datum.unit, Unit::DegreesC)` on a wrong unit. -/
inductive AssessorPanic where
  | unwrapNone
  | assertUnitNe
deriving DecidableEq

/-- The default assessor for `thermo5000` in `DEFAULT_ASSESSOR`
(`controller/src/assessor.rs`): unwraps the float value, asserts the
unit, then compares against the 28 °C and 22 °C thresholds. Panics are
modelled as `.error`. -/
def thermo5000Assess (d : Datum) : Except AssessorPanic (Option Command) :=
  match d.value with
  | .float t =>
    if d.unit = Unit.degreesC then
      .ok (if t > 28 then some (.coolBy (t - 25))
        else if t < 22 then some (.heatBy (25 - t))
        else none)
    else .error .assertUnitNe
  | _ => .error .unwrapNone

/-- `DEFAULT_ASSESSOR`: the static map from model keys to assessors. -/
def DEFAULT_ASSESSOR (key : Str) :
    Option (Datum → Except AssessorPanic (Option Command)) :=
  if key = str "thermo5000" then some thermo5000Assess else none

/-- One insertion step of the Sensor poller (`sensor/src/lib.rs`,
`buffer_size = 10`): pop the back when the deque is full, then push the
new datum to the front. The deque is a `List` with the front first. -/
def sensorBufferInsert (buf : List Datum) (d : Datum) : List Datum :=
  let buf := if buf.length = 10 then buf.dropLast else buf
  d :: buf

/-- One insertion step of the Controller poller (`controller/src/lib.rs`,
`buffer_size = 500`). -/
def controllerBufferInsert (buf : List Datum) (d : Datum) : List Datum :=
  let buf := if buf.length = 500 then buf.dropLast else buf
  d :: buf

/-- Modelled from the spec: the `Coefficients` record of the Environment
float generator. `environment/src/lib.rs` constructs and mutates
`Coefficients` and `DatumGenerator::new(coefficients, noise, unit)`, but
that version of `environment/src/generator.rs` is not in the source tree
(the tree carries an older draft without `Coefficients`), so the shape
is taken from the spec: `Coefficients{constant, slope, amplitude,
period, phase}`. -/
structure Coefficients where
  constant : ℚ
  slope : ℚ
  amplitude : ℚ
  period : ℚ
  phase : ℚ
deriving DecidableEq

/-- Modelled from the spec: `Coefficients::new` with the documented
invariant that `period ≠ 0` — implementations must substitute
`(amplitude = 0, period = 1)` when asked for a zero period. -/
def Coefficients.new (constant slope amplitude period phase : ℚ) :
    Coefficients :=
  if period = 0 then ⟨constant, slope, 0, 1, phase⟩
  else ⟨constant, slope, amplitude, period, phase⟩

/-- Modelled from the spec: the `DatumGenerator` owned by the
Environment for one sensor id — coefficients, a noise magnitude, a unit,
and the reference time `t₀` captured at construction. -/
structure DatumGenerator where
  coefficients : Coefficients
  noise : ℚ
  unit : Unit
  t0 : ℤ
deriving DecidableEq

/-- Modelled from the spec: the float linear generator contract,
`value(t) = constant + slope·t + amplitude·sin(2π·(t+phase)/period) +
noise`, with `t` in milliseconds since `t₀`. `sin2pi x` stands for
`sin(2π·x)`; it is a parameter because `sin` has no computable exact
model over `ℚ`. -/
def f32Linear (sin2pi : ℚ → ℚ) (c : Coefficients) (noise : ℚ) (t : ℚ) : ℚ :=
  c.constant + c.slope * t + c.amplitude * sin2pi ((t + c.phase) / c.period) + noise

/-- Modelled from the spec: `DatumGenerator::generate` at the instant
`now`, producing a float `Datum` from the generator coefficients. -/
def DatumGenerator.generate (g : DatumGenerator) (sin2pi : ℚ → ℚ) (now : ℤ) :
    Datum :=
  Datum.new (.float (f32Linear sin2pi g.coefficients g.noise ((now - g.t0 : ℤ) : ℚ)))
    g.unit now

/-- The Environment generator registry, `HashMap<Id, DatumGenerator>`. -/
abbrev GenMap := List (Id × DatumGenerator)

/-- `HashMap::get` on the generator registry. -/
def GenMap.lookup (id : Id) : GenMap → Option DatumGenerator
  | [] => none
  | (k, g) :: rest => if id = k then some g else GenMap.lookup id rest

/-- `HashMap::contains_key` on the generator registry. -/
def GenMap.containsKey (id : Id) (m : GenMap) : Bool :=
  (GenMap.lookup id m).isSome

/-- `HashMap::insert` on the generator registry. -/
def GenMap.insert (id : Id) (g : DatumGenerator) : GenMap → GenMap
  | [] => [(id, g)]
  | (k, g') :: rest =>
    if id = k then (id, g) :: rest else (k, g') :: GenMap.insert id g rest

/-- In-place mutation of the generator registered under `id`
(`generators.get_mut(&id).unwrap()` followed by a field update). -/
def GenMap.update (id : Id) (f : DatumGenerator → DatumGenerator) :
    GenMap → GenMap
  | [] => []
  | (k, g) :: rest =>
    if id = k then (k, f g) :: rest else (k, g) :: GenMap.update id f rest

/-- The mutation `handle_post_command` applies to a generator:
`CoolBy(Δ)` subtracts `Δ·0.01` from the constant coefficient,
`HeatBy(Δ)` adds `Δ·0.01`; nothing else changes. -/
def applyCommand (c : Command) (g : DatumGenerator) : DatumGenerator :=
  match c with
  | .coolBy delta =>
    { g with coefficients :=
      { g.coefficients with constant := g.coefficients.constant - delta * (1 / 100) } }
  | .heatBy delta =>
    { g with coefficients :=
      { g.coefficients with constant := g.coefficients.constant + delta * (1 / 100) } }

/-- Outcome of an Environment handler invocation: the response written
to the stream together with the updated registry, or a panic
(`unimplemented!()`). -/
inductive EnvOutcome where
  | response (msg : Message) (gens : GenMap)
  | panic (reason : Str)
deriving DecidableEq

/-- Whether an outcome is a `200 OK` response. -/
def EnvOutcome.respondedOk : EnvOutcome → Bool
  | .response m _ => m.startLine = str "HTTP/1.1 200 OK"
  | .panic _ => false

/-- The sensor id extracted from a `GET /datum/<id>` start line. -/
def extractDatumId (startLine : Str) : Id :=
  stripAllSuf (str " HTTP/1.1") (stripAllPre (str "GET /datum/") startLine)

/-- The body of the unknown-sensor failure response. -/
def unknownSensorMsg (id : Id) : Str :=
  str "unknown Sensor ID \x27" ++ id
    ++ str "\x27. To register a new sensor, you must include \x27kind\x27 and \x27unit\x27 headers in your request"

/-- `Environment::handle_get_datum`. For a known id, respond with a
freshly generated datum; for an unknown id, require `kind` and `unit`
headers, create a generator (only `float` is implemented — `bool` and
`int` hit `unimplemented!()`), register it and respond with a datum; on
missing or unparseable headers, respond 400. `now` is the clock reading
and `fd`/`td`/`sin2pi` are the external float display, timestamp display
and sine. -/
def handleGetDatum (fd : ℚ → Str) (td : ℤ → Str) (sin2pi : ℚ → ℚ) (now : ℤ)
    (message : Message) (generators : GenMap) : EnvOutcome :=
  let id := extractDatumId message.startLine
  match GenMap.lookup id generators with
  | none =>
    match message.header (str "kind"), message.header (str "unit") with
    | some kind, some unit =>
      match Kind.parse kind, Unit.parse unit with
      | .ok kind, .ok unit =>
        match kind with
        | .bool => .panic (str "not implemented")
        | .int => .panic (str "not implemented")
        | .float =>
          let coefficients := Coefficients.new 0 0 5 10000 0
          let noise : ℚ := 1 / 2
          let generator : DatumGenerator := ⟨coefficients, noise, unit, now⟩
          let gens := GenMap.insert id generator generators
          let datum := generator.generate sin2pi now
          .response (Message.respondOk.withBody (datum.render fd td)) gens
      | _, _ =>
        .response (handlerFailure (str "could not parse required headers")) generators
    | _, _ =>
      .response (handlerFailure (unknownSensorMsg id)) generators
  | some generator =>
    .response
      (Message.respondOk.withBody ((generator.generate sin2pi now).render fd td))
      generators

/-- Rust `Debug` rendering of an `Option<String>`. -/
def optionDebug : Option Str → Str
  | none => str "None"
  | some s => str "Some(\"" ++ s ++ str "\")"

/-- `Environment::handle_post_command`: requires `id` and `model`
headers; rejects Controller/Environment/Unsupported models; parses the
body as a `Thermo5000` command; mutates the generator constant for a
known id, responds 400 for an unknown one. -/
def handlePostCommand (fp : Str → Option ℚ) (message : Message)
    (generators : GenMap) : Message × GenMap :=
  match message.header (str "id"), message.header (str "model") with
  | some id, some model =>
    match Model.parse model with
    | .ok m =>
      match m with
      | .controller =>
        (handlerFailure (str "does not accept Commands directly from the Controller"),
          generators)
      | .environment =>
        (handlerFailure (str "does not accept Commands from itself"), generators)
      | .unsupported =>
        (handlerFailure (str "unsupported device"), generators)
      | .thermo5000 =>
        match message.body.map (Command.parse fp) with
        | some (.ok command) =>
          if GenMap.containsKey id generators then
            (Message.respondOk, GenMap.update id (applyCommand command) generators)
          else
            (handlerFailure (str "cannot update generator for unknown id: " ++ id),
              generators)
        | _ =>
          (handlerFailure
            (str "could not parse \"" ++ optionDebug message.body
              ++ str "\" as Thermo5000 Command"),
            generators)
    | .error _ =>
      (handlerFailure (str "could not parse required headers"), generators)
  | _, _ =>
    (handlerFailure
      (str "missing required headers. \x27id\x27 and \x27model\x27 headers are required to update a generator."),
      generators)

/-- `TemperatureActuator::get_handler` (`actuator_temperature/src/lib.rs`):
handles `POST /command` by parsing the body as a command; with a
discovered Environment it responds with a `handler_failure` carrying
"not yet implemented -- need to forward command ... to Environment"
(the forwarding is a TODO in the source); without one it responds
"could not find environment". No outbound message is ever sent, and no
`200 OK` is produced. -/
def temperatureActuatorHandle (fp : Str → Option ℚ) (fd : ℚ → Str)
    (environment : Option Str) (message : Message) : Message :=
  if message.startLine = str "POST /command HTTP/1.1" then
    match message.body.map (Command.parse fp) with
    | some (.ok command) =>
      match environment with
      | some _ =>
        handlerFailure
          (str "not yet implemented -- need to forward command "
            ++ Command.render fd command ++ str " to Environment")
      | none => handlerFailure (str "could not find environment")
    | _ =>
      handlerFailure (str "cannot parse body as command: " ++ optionDebug message.body)
  else
    handlerFailure (str "cannot parse request: " ++ message.startLine)

/-- A concrete stand-in for the external `f32` `Display`, used to
instantiate theorems at concrete inputs. -/
def fd0 : ℚ → Str := fun q =>
  if q = 1 then str "1" else if q = 5 then str "5" else str "0"

/-- A concrete stand-in for the external `f32` `FromStr`. -/
def fp0 : Str → Option ℚ := fun s =>
  if s = str "1" then some 1
  else if s = str "5" then some 5
  else if s = str "1.0" then some 1
  else none

/-- A concrete stand-in for the external RFC 3339 timestamp rendering. -/
def td0 : ℤ → Str := fun _ => str "2024-01-01T00:00:00+00:00"

/-- A concrete stand-in for the external RFC 3339 timestamp parser. -/
def tp0 : Str → Option ℤ := fun s =>
  if s = str "2024-01-01T00:00:00+00:00" then some 0 else none

/-- A concrete stand-in for the sine term of the float generator. -/
def sin0 : ℚ → ℚ := fun _ => 0

/-- The request of C1's failing input: a `POST /command` carrying a
well-formed `HeatBy` body, as the Controller would send it. -/
def c1Request : Message :=
  (Message.requestPost (str "/command")).withBody
    ([lbrace] ++ str "\"name\":\"HeatBy\",\"value\":\"1\"" ++ [rbrace])

/-- The request of C2's concrete input: `GET /datum/s1` with headers
`kind: bool` and `unit: °C`, for an id unknown to the Environment. -/
def c2Request : Message :=
  (Message.requestGet (str "/datum/s1")).withHeaders
    [(str "kind", str "bool"), (str "unit", str "°C")]

/-- The generator registry of C3's concrete input. -/
def c3Gens : GenMap :=
  [(str "s1", ⟨⟨20, 0, 5, 10000, 0⟩, 1 / 2, Unit.degreesC, 0⟩)]

/-- The request of C3's concrete input: `POST /command` with `id: s1`,
`model: thermo5000`, and a `HeatBy 5` body. -/
def c3Request : Message :=
  ((Message.requestPost (str "/command")).withHeaders
    [(str "id", str "s1"), (str "model", str "thermo5000")]).withBody
    ([lbrace] ++ str "\"name\":\"HeatBy\",\"value\":\"5\"" ++ [rbrace])

/-- Character set of the standard library's `f32` rendering: decimal
digits, the dot, and the minus sign. -/
def floatCharOk (c : Char) : Bool := isDigit c || c = '.' || c = '-'

/-- Character set of an `i32` rendering: decimal digits and the minus
sign. -/
def intCharOk (c : Char) : Bool := isDigit c || c = '-'

/-- Character-set condition on RFC 3339 timestamp renderings: no
whitespace, no comma, no double quote. -/
def tsCharOk (c : Char) : Bool := !(isWs c) && !(c = ',') && !(c = '"')

/-- The hypotheses C7 takes from the external (standard library) float
codec and the `i32` range, per value shape: booleans need nothing;
`i32` values lie in the `i32` range; floats round-trip through the
external display and parse and render within the float character set. -/
def ValueHyp (fd : ℚ → Str) (fp : Str → Option ℚ) : Value → Prop
  | .bool _ => True
  | .int z => -(2 ^ 31) ≤ z ∧ z < 2 ^ 31
  | .float q =>
    fp (Value.render fd (.float q)) = some q ∧ ∀ c ∈ fd q, floatCharOk c = true

/-- Whether `pat` occurs as a contiguous substring. -/
def hasSub (pat : Str) : Str → Bool
  | [] => hasPre pat []
  | c :: cs => hasPre pat (c :: cs) || hasSub pat cs

/-- The serialised form of one header, as `Display for Message` emits it. -/
def headerLine (kv : Str × Str) : Str := kv.1 ++ (str ": " ++ (kv.2 ++ str "\r\n"))

/-- The concatenation of serialised header lines. -/
def concatLines : Headers → Str
  | [] => []
  | kv :: rest => headerLine kv ++ concatLines rest

/-- The canonical-form invariant of the header map model: entries sorted
strictly by key. -/
def hdrSorted (hs : Headers) : Prop :=
  hs.Pairwise (fun a b => strLtB a.1 b.1 = true)

/-- The conditions on one header under which its serialised line reads
back unchanged: key and value are trim-stable and newline-free, and the
key does not contain the `": "` separator. -/
def headerWf (kv : Str × Str) : Prop :=
  trimStr kv.1 = kv.1 ∧ trimStr kv.2 = kv.2 ∧ '\n' ∉ kv.1 ∧ '\n' ∉ kv.2 ∧
    hasSub (str ": ") kv.1 = false

/-- A message without the codec-added `Content-Type` and `Content-Length`
headers, the modulus of the round-trip property. -/
def stripCodec (m : Message) : Message :=
  ⟨m.startLine,
    m.headers.filter
      (fun kv => !(kv.1 = str "Content-Type" || kv.1 = str "Content-Length")),
    m.body⟩

/-- The message of C6's counterexample: an ASCII header value with a
trailing space. -/
def c6Cex : Message :=
  (Message.requestGet (str "/")).withHeaders [(str "foo", str "bar ")]

theorem hasPre_self_append (p r : Str) : hasPre p (p ++ r) = true := by
  induction p with
  | nil => rfl
  | cons a as ih => simp [hasPre, ih]

section BufferLemmas

/-- Both poller insertions follow the same pattern with different
bounds; this helper characterises the fold of that pattern. -/
theorem boundedFold (b : ℕ) (hb : 0 < b) (ds : List Datum) :
    List.foldl (fun buf d => d :: (if buf.length = b then buf.dropLast else buf))
      [] ds = ds.reverse.take b := by
  induction ds using List.reverseRecOn with
  | nil => simp
  | append_singleton ds d ih =>
    rw [List.foldl_append, List.foldl_cons, List.foldl_nil, ih,
      List.reverse_append]
    simp only [List.reverse_singleton, List.singleton_append]
    by_cases hlen : ds.reverse.length ≤ b - 1
    · have h1 : (ds.reverse.take b).length ≠ b := by
        rw [List.length_take]
        omega
      rw [if_neg h1, List.take_cons (by omega : 0 < b)]
      congr 1
      rw [List.take_of_length_le hlen, List.take_of_length_le (by omega)]
    · have h1 : (ds.reverse.take b).length = b := by
        rw [List.length_take]
        omega
      rw [if_pos h1, List.take_cons (by omega : 0 < b)]
      congr 1
      rw [List.dropLast_eq_take, h1, List.take_take]
      congr 1
      omega

end BufferLemmas

/-- C8: every insertion step of the Sensor poller and of the Controller
poller preserves the buffer bounds (10 and 500), and the buffer built by
repeatedly inserting arriving datums is exactly the most recent `bound`
of them, newest first (the oldest is evicted from the back when the
bound is reached). -/
theorem c8_poller_buffer_invariants :
    (∀ (buf : List Datum) (d : Datum), buf.length ≤ 10 →
      (sensorBufferInsert buf d).length ≤ 10) ∧
    (∀ (buf : List Datum) (d : Datum), buf.length ≤ 500 →
      (controllerBufferInsert buf d).length ≤ 500) ∧
    (∀ ds : List Datum, List.foldl sensorBufferInsert [] ds = ds.reverse.take 10) ∧
    (∀ ds : List Datum, List.foldl controllerBufferInsert [] ds = ds.reverse.take 500) := by
  refine ⟨?_, ?_, ?_, ?_⟩
  · intro buf d h
    by_cases hl : buf.length = 10 <;>
      simp [sensorBufferInsert, hl, List.length_dropLast] <;> omega
  · intro buf d h
    by_cases hl : buf.length = 500 <;>
      simp [controllerBufferInsert, hl, List.length_dropLast] <;> omega
  · intro ds
    exact boundedFold 10 (by omega) ds
  · intro ds
    exact boundedFold 500 (by omega) ds

/-- Witness for C8 at a concrete buffer: a full sensor buffer of ten
datums stays at ten elements after an insertion. -/
theorem c8_poller_buffer_invariants_witness :
    (List.replicate 10 (Datum.new (Value.bool true) Unit.unitless 0)).length ≤ 10 ∧
    (sensorBufferInsert (List.replicate 10 (Datum.new (Value.bool true) Unit.unitless 0))
      (Datum.new (Value.bool false) Unit.unitless 1)).length ≤ 10 := by
  refine ⟨by simp, ?_⟩
  exact c8_poller_buffer_invariants.1
    (List.replicate 10 (Datum.new (Value.bool true) Unit.unitless 0))
    (Datum.new (Value.bool false) Unit.unitless 1) (by simp)

/-- C5: the default `Thermo5000` assessor returns `CoolBy(t − 25)` above
28 °C, `HeatBy(25 − t)` below 22 °C, and no command on the closed
dead-band `[22, 28]` (in particular none at the boundaries). -/
theorem c5_default_assessor_deadband (d : Datum) (t : ℚ)
    (hv : d.value = Value.float t) (hu : d.unit = Unit.degreesC) :
    (t > 28 → thermo5000Assess d = .ok (some (Command.coolBy (t - 25)))) ∧
    (t < 22 → thermo5000Assess d = .ok (some (Command.heatBy (25 - t)))) ∧
    (22 ≤ t → t ≤ 28 → thermo5000Assess d = .ok none) := by
  obtain ⟨v, u, ts⟩ := d
  simp only at hv hu
  subst hv hu
  refine ⟨?_, ?_, ?_⟩
  · intro h
    simp [thermo5000Assess, h]
  · intro h
    have h2 : ¬ t > 28 := by linarith
    simp [thermo5000Assess, h, h2]
  · intro h1 h2
    have h3 : ¬ t > 28 := by linarith
    have h4 : ¬ t < 22 := by linarith
    simp [thermo5000Assess, h3, h4]

/-- Witness for C5 at 30 °C: the assessor orders cooling by 5 °C. -/
theorem c5_default_assessor_deadband_witness :
    thermo5000Assess (Datum.new (Value.float 30) Unit.degreesC 0)
      = .ok (some (Command.coolBy 5)) := by
  have h :=
    (c5_default_assessor_deadband (Datum.new (Value.float 30) Unit.degreesC 0) 30
      rfl rfl).1 (by norm_num)
  norm_num at h
  exact h

/-- C10: the default `Thermo5000` assessor panics on every datum whose
value is not a float (unwrap of `get_as_float`) and on every float datum
whose unit is not degrees Celsius (the unit assertion); it returns an
`Option` normally exactly on float-valued degrees-Celsius datums. -/
theorem c10_assessor_partiality (d : Datum) :
    ((∀ t, d.value ≠ Value.float t) →
      thermo5000Assess d = .error AssessorPanic.unwrapNone) ∧
    (∀ t, d.value = Value.float t → d.unit ≠ Unit.degreesC →
      thermo5000Assess d = .error AssessorPanic.assertUnitNe) ∧
    (∀ t, d.value = Value.float t → d.unit = Unit.degreesC →
      ∃ r, thermo5000Assess d = .ok r) := by
  obtain ⟨v, u, ts⟩ := d
  refine ⟨?_, ?_, ?_⟩
  · intro h
    cases v with
    | bool b => simp [thermo5000Assess]
    | float q => exact absurd rfl (h q)
    | int z => simp [thermo5000Assess]
  · intro t hv hu
    simp only at hv
    subst hv
    simp only at hu
    simp [thermo5000Assess, hu]
  · intro t hv hu
    simp only at hv hu
    subst hv hu
    exact ⟨_, rfl⟩

/-- Witness for C10: a boolean datum makes the assessor panic on the
float unwrap, and an integer degrees-Celsius datum does too. -/
theorem c10_assessor_partiality_witness :
    thermo5000Assess (Datum.new (Value.bool true) Unit.degreesC 0)
      = .error AssessorPanic.unwrapNone ∧
    thermo5000Assess (Datum.new (Value.float 25) Unit.unitless 0)
      = .error AssessorPanic.assertUnitNe := by
  constructor
  · exact (c10_assessor_partiality (Datum.new (Value.bool true) Unit.degreesC 0)).1
      (by intro t; simp [Datum.new])
  · exact (c10_assessor_partiality (Datum.new (Value.float 25) Unit.unitless 0)).2.1
      25 rfl (by simp [Datum.new])

/-- C9 (generator modelled from the spec; see `Coefficients`): for every
time `t` since `t₀`, the float linear generator built from requested
coefficients produces `constant + slope·t + amplitude·sin(2π·(t+phase)/
period) + noise` with the stored coefficients, the stored period is
never zero, and a zero-period request is replaced by `(amplitude = 0,
period = 1)` while any other request is stored unchanged. -/
theorem c9_float_generator_formula (constant slope amplitude period phase noise : ℚ)
    (sin2pi : ℚ → ℚ) (t : ℚ) :
    (Coefficients.new constant slope amplitude period phase).period ≠ 0 ∧
    f32Linear sin2pi (Coefficients.new constant slope amplitude period phase) noise t
      = (Coefficients.new constant slope amplitude period phase).constant
        + (Coefficients.new constant slope amplitude period phase).slope * t
        + (Coefficients.new constant slope amplitude period phase).amplitude
          * sin2pi ((t + (Coefficients.new constant slope amplitude period phase).phase)
            / (Coefficients.new constant slope amplitude period phase).period)
        + noise ∧
    (period = 0 →
      (Coefficients.new constant slope amplitude period phase).amplitude = 0 ∧
      (Coefficients.new constant slope amplitude period phase).period = 1) ∧
    (period ≠ 0 →
      Coefficients.new constant slope amplitude period phase
        = ⟨constant, slope, amplitude, period, phase⟩) := by
  by_cases h : period = 0 <;>
    simp [Coefficients.new, f32Linear, h]

/-- C1 (code bug): with a discovered Environment, the Actuator's
`POST /command` handler does not forward the body and does not respond
`200 OK`; it responds `400 Bad Request` with a body starting
"not yet implemented" (the source's forwarding TODO), and with an empty
Environment slot it responds 400 "could not find environment". -/
theorem c1_actuator_forwarding_unimplemented :
    temperatureActuatorHandle fp0 fd0 (some (str "10.0.0.1:5454")) c1Request
      = handlerFailure
        (str "not yet implemented -- need to forward command "
          ++ Command.render fd0 (Command.heatBy 1) ++ str " to Environment") ∧
    (temperatureActuatorHandle fp0 fd0 (some (str "10.0.0.1:5454")) c1Request).startLine
      = str "HTTP/1.1 400 Bad Request" ∧
    hasPre (str "not yet implemented")
      ((temperatureActuatorHandle fp0 fd0 (some (str "10.0.0.1:5454")) c1Request).body.getD [])
      = true ∧
    temperatureActuatorHandle fp0 fd0 none c1Request
      = handlerFailure (str "could not find environment") := by
  have hparse :
      Command.parse fp0 ([lbrace] ++ str "\"name\":\"HeatBy\",\"value\":\"1\"" ++ [rbrace])
        = .ok (Command.heatBy 1) := by
    simp [Command.parse, stripAllPre, hasPre, fp0, str, lbrace, rbrace, isWs,
      stripAllPreC, stripAllSufC, splitChar]
  have hstart : c1Request.startLine = str "POST /command HTTP/1.1" := by decide
  have hbody : c1Request.body
      = some ([lbrace] ++ str "\"name\":\"HeatBy\",\"value\":\"1\"" ++ [rbrace]) := rfl
  have h1 : ∀ env : Option Str,
      temperatureActuatorHandle fp0 fd0 env c1Request
        = match env with
          | some _ =>
            handlerFailure
              (str "not yet implemented -- need to forward command "
                ++ Command.render fd0 (Command.heatBy 1) ++ str " to Environment")
          | none => handlerFailure (str "could not find environment") := by
    intro env
    simp only [List.cons_append, List.nil_append] at hparse
    cases env <;> simp [temperatureActuatorHandle, hstart, hbody, hparse]
  refine ⟨h1 _, ?_, ?_, h1 _⟩
  · rw [h1]
    rfl
  · rw [h1]
    show hasPre (str "not yet implemented")
      (str "not yet implemented -- need to forward command "
        ++ Command.render fd0 (Command.heatBy 1) ++ str " to Environment") = true
    have h2 : str "not yet implemented -- need to forward command "
        = str "not yet implemented" ++ str " -- need to forward command " := by decide
    rw [h2, List.append_assoc, List.append_assoc]
    exact hasPre_self_append _ _

/-- C2 counterexample: a `GET /datum/<unknown id>` request with
`kind: bool` and a parseable unit makes `handle_get_datum` hit
`unimplemented!()` — the handler panics instead of registering a
generator and responding `200 OK`. -/
theorem c2_bool_generator_unimplemented_cex :
    handleGetDatum fd0 td0 sin0 0 c2Request [] = .panic (str "not implemented") ∧
    (handleGetDatum fd0 td0 sin0 0 c2Request []).respondedOk = false := by
  have h : handleGetDatum fd0 td0 sin0 0 c2Request [] = .panic (str "not implemented") := by
    simp [handleGetDatum, c2Request, extractDatumId, stripAllPre, stripAllSuf, hasPre,
      Message.requestGet, Message.request, Message.new, Message.withHeaders,
      Message.header, hInsert, hLookup, strLtB, str, GenMap.lookup, Kind.parse,
      Unit.parse]
  exact ⟨h, by rw [h]; rfl⟩

/-- C2 (amended): for a `GET /datum/<id>` request with an id unknown to
the generator map and headers carrying a parseable kind and unit, the
kinds `bool` and `int` make the handler panic through `unimplemented!()`
(the source's own tests assert this panic); only `float` is implemented. -/
theorem c2_bool_int_generators_unimplemented (fd : ℚ → Str) (td : ℤ → Str)
    (sin2pi : ℚ → ℚ) (now : ℤ) (message : Message) (gens : GenMap)
    (k u : Str) (kind : Kind) (unit : Unit)
    (hid : GenMap.lookup (extractDatumId message.startLine) gens = none)
    (hk : message.header (str "kind") = some k)
    (hu : message.header (str "unit") = some u)
    (hpk : Kind.parse k = .ok kind)
    (hpu : Unit.parse u = .ok unit)
    (hkind : kind = Kind.bool ∨ kind = Kind.int) :
    handleGetDatum fd td sin2pi now message gens = .panic (str "not implemented") := by
  rcases hkind with h | h <;> subst h <;>
    simp [handleGetDatum, hid, hk, hu, hpk, hpu]

/-- Witness for C2's amended claim, at a concrete `kind: int` request. -/
theorem c2_bool_int_generators_unimplemented_witness :
    handleGetDatum fd0 td0 sin0 0
      ((Message.requestGet (str "/datum/s2")).withHeaders
        [(str "kind", str "int"), (str "unit", str "°C")]) []
      = .panic (str "not implemented") := by
  apply c2_bool_int_generators_unimplemented fd0 td0 sin0 0 _ _
    (str "int") (str "°C") Kind.int Unit.degreesC
  · rfl
  · simp [Message.requestGet, Message.request, Message.new, Message.withHeaders,
      Message.header, hInsert, hLookup, strLtB, str]
  · simp [Message.requestGet, Message.request, Message.new, Message.withHeaders,
      Message.header, hInsert, hLookup, strLtB, str]
  · rfl
  · rfl
  · right; rfl

theorem genMapUpdate_ne (id : Id) (f : DatumGenerator → DatumGenerator)
    (gens : GenMap) (k : Id) (g : DatumGenerator) (hk : k ≠ id) :
    (k, g) ∈ GenMap.update id f gens ↔ (k, g) ∈ gens := by
  induction gens with
  | nil => simp [GenMap.update]
  | cons e rest ih =>
    obtain ⟨k', g'⟩ := e
    by_cases h : id = k'
    · subst h
      simp [GenMap.update, List.mem_cons, Prod.mk.injEq, hk]
    · simp [GenMap.update, h, List.mem_cons, ih]

theorem genMapUpdate_lookup (id : Id) (f : DatumGenerator → DatumGenerator)
    (gens : GenMap) :
    GenMap.lookup id (GenMap.update id f gens) = (GenMap.lookup id gens).map f := by
  induction gens with
  | nil => simp [GenMap.update, GenMap.lookup]
  | cons e rest ih =>
    obtain ⟨k', g'⟩ := e
    by_cases h : id = k'
    · subst h
      simp [GenMap.update, GenMap.lookup]
    · simp [GenMap.update, GenMap.lookup, h, ih]

/-- C3: a `POST /command` to the Environment with `id`/`model` headers,
the model parsing to `thermo5000` and the body parsing to a `Thermo5000`
command, mutates exactly the target generator's constant coefficient
(`HeatBy(Δ)` adds `Δ·0.01`, `CoolBy(Δ)` subtracts `Δ·0.01`; every other
field and every other generator is unchanged) and responds `200 OK`;
when the id is not in the generator map it responds `400` and leaves the
map unchanged. -/
theorem c3_post_command_mutates_only_constant (fp : Str → Option ℚ)
    (message : Message) (gens : GenMap) (id model body : Str) (cmd : Command)
    (hid : message.header (str "id") = some id)
    (hmodel : message.header (str "model") = some model)
    (hm : Model.parse model = .ok Model.thermo5000)
    (hbody : message.body = some body)
    (hcmd : Command.parse fp body = .ok cmd) :
    (GenMap.containsKey id gens = true →
      handlePostCommand fp message gens
        = (Message.respondOk, GenMap.update id (applyCommand cmd) gens)) ∧
    (GenMap.containsKey id gens = false →
      handlePostCommand fp message gens
        = (handlerFailure (str "cannot update generator for unknown id: " ++ id),
            gens)) ∧
    (∀ g : DatumGenerator,
      (applyCommand cmd g).coefficients.constant
        = (match cmd with
           | .heatBy delta => g.coefficients.constant + delta * (1 / 100)
           | .coolBy delta => g.coefficients.constant - delta * (1 / 100)) ∧
      (applyCommand cmd g).coefficients.slope = g.coefficients.slope ∧
      (applyCommand cmd g).coefficients.amplitude = g.coefficients.amplitude ∧
      (applyCommand cmd g).coefficients.period = g.coefficients.period ∧
      (applyCommand cmd g).coefficients.phase = g.coefficients.phase ∧
      (applyCommand cmd g).noise = g.noise ∧
      (applyCommand cmd g).unit = g.unit ∧
      (applyCommand cmd g).t0 = g.t0) ∧
    (∀ (k : Id) (g : DatumGenerator), k ≠ id →
      ((k, g) ∈ GenMap.update id (applyCommand cmd) gens ↔ (k, g) ∈ gens)) ∧
    GenMap.lookup id (GenMap.update id (applyCommand cmd) gens)
      = (GenMap.lookup id gens).map (applyCommand cmd) := by
  refine ⟨?_, ?_, ?_, ?_, ?_⟩
  · intro h
    simp [handlePostCommand, hid, hmodel, hm, hbody, hcmd, h]
  · intro h
    simp [handlePostCommand, hid, hmodel, hm, hbody, hcmd, h]
  · intro g
    cases cmd <;> simp [applyCommand]
  · intro k g hk
    exact genMapUpdate_ne id (applyCommand cmd) gens k g hk
  · exact genMapUpdate_lookup id (applyCommand cmd) gens

/-- Witness for C3: heating by 5 raises the `s1` generator constant from
20 to 20.05 and yields `200 OK`. -/
theorem c3_post_command_mutates_only_constant_witness :
    handlePostCommand fp0 c3Request c3Gens
      = (Message.respondOk,
         [(str "s1", ⟨⟨20 + 5 * (1 / 100), 0, 5, 10000, 0⟩, 1 / 2, Unit.degreesC, 0⟩)]) := by
  have hid : c3Request.header (str "id") = some (str "s1") := by
    simp [c3Request, Message.requestPost, Message.request, Message.new,
      Message.withHeaders, Message.withBody, Message.header, hInsert, hLookup,
      strLtB, str, utf8Len, charBytes, natToStr, digitChar, lbrace, rbrace]
  have hmodel : c3Request.header (str "model") = some (str "thermo5000") := by
    simp [c3Request, Message.requestPost, Message.request, Message.new,
      Message.withHeaders, Message.withBody, Message.header, hInsert, hLookup,
      strLtB, str, utf8Len, charBytes, natToStr, digitChar, lbrace, rbrace]
  have hbody : c3Request.body
      = some ([lbrace] ++ str "\"name\":\"HeatBy\",\"value\":\"5\"" ++ [rbrace]) := by
    simp [c3Request, Message.requestPost, Message.request, Message.new,
      Message.withHeaders, Message.withBody]
  have hcmd :
      Command.parse fp0 ([lbrace] ++ str "\"name\":\"HeatBy\",\"value\":\"5\"" ++ [rbrace])
        = .ok (Command.heatBy 5) := by
    simp [Command.parse, stripAllPre, hasPre, fp0, str, lbrace, rbrace, isWs,
      stripAllPreC, stripAllSufC, splitChar]
  have h :=
    (c3_post_command_mutates_only_constant fp0 c3Request c3Gens (str "s1")
      (str "thermo5000") _ (Command.heatBy 5) hid hmodel rfl hbody hcmd).1
      (by simp [c3Gens, GenMap.containsKey, GenMap.lookup])
  rw [h]
  simp [c3Gens, GenMap.update, applyCommand, str]

/-- C4: a `GET /datum/<id>` request with an id unknown to the generator
map and no `kind`/`unit` headers receives a `400 Bad Request` whose body
starts with "unknown Sensor ID", and the map is unchanged. -/
theorem c4_unknown_id_missing_headers (fd : ℚ → Str) (td : ℤ → Str)
    (sin2pi : ℚ → ℚ) (now : ℤ) (message : Message) (gens : GenMap)
    (hid : GenMap.lookup (extractDatumId message.startLine) gens = none)
    (hk : message.header (str "kind") = none)
    (hu : message.header (str "unit") = none) :
    handleGetDatum fd td sin2pi now message gens
      = .response (handlerFailure (unknownSensorMsg (extractDatumId message.startLine)))
          gens ∧
    (handlerFailure (unknownSensorMsg (extractDatumId message.startLine))).startLine
      = str "HTTP/1.1 400 Bad Request" ∧
    (handlerFailure (unknownSensorMsg (extractDatumId message.startLine))).body
      = some (unknownSensorMsg (extractDatumId message.startLine)) ∧
    hasPre (str "unknown Sensor ID")
      (unknownSensorMsg (extractDatumId message.startLine)) = true := by
  refine ⟨?_, rfl, rfl, ?_⟩
  · simp [handleGetDatum, hid, hk, hu]
  · have h : unknownSensorMsg (extractDatumId message.startLine)
        = str "unknown Sensor ID"
          ++ (str " \x27" ++ extractDatumId message.startLine
            ++ str "\x27. To register a new sensor, you must include \x27kind\x27 and \x27unit\x27 headers in your request") := by
      simp [unknownSensorMsg, str]
    rw [h]
    exact hasPre_self_append _ _

theorem ws_cases (c : Char) (h : isWs c = true) :
    c = ' ' ∨ c = '\t' ∨ c = '\r' ∨ c = '\n' := by
  simp [isWs] at h
  tauto

theorem floatCharOk_not_ws (c : Char) (h : floatCharOk c = true) : isWs c = false := by
  cases hw : isWs c
  · rfl
  · rcases ws_cases c hw with h2 | h2 | h2 | h2 <;> subst h2 <;>
      exact absurd h (by decide)

theorem floatCharOk_ne_comma (c : Char) (h : floatCharOk c = true) : c ≠ ',' := by
  intro h2
  subst h2
  exact absurd h (by decide)

theorem floatCharOk_ne_quote (c : Char) (h : floatCharOk c = true) : c ≠ '"' := by
  intro h2
  subst h2
  exact absurd h (by decide)

theorem intCharOk_float (c : Char) (h : intCharOk c = true) : floatCharOk c = true := by
  simp [intCharOk] at h
  simp [floatCharOk]
  tauto

theorem tsCharOk_not_ws (c : Char) (h : tsCharOk c = true) : isWs c = false := by
  simp [tsCharOk] at h
  tauto

theorem tsCharOk_ne_comma (c : Char) (h : tsCharOk c = true) : c ≠ ',' := by
  simp [tsCharOk] at h
  tauto

theorem tsCharOk_ne_quote (c : Char) (h : tsCharOk c = true) : c ≠ '"' := by
  simp [tsCharOk] at h
  tauto

theorem ne_of_mem_charset {l : Str} (p : Char → Bool) (h : ∀ c ∈ l, p c = true)
    (target : Str) (c : Char) (hc : c ∈ target) (hpc : p c = false) : l ≠ target := by
  intro he
  subst he
  rw [h c hc] at hpc
  cases hpc

theorem filter_not_ws_eq_self (l : Str) (h : ∀ c ∈ l, isWs c = false) :
    l.filter (fun c => !(isWs c)) = l := by
  rw [List.filter_eq_self]
  intro a ha
  simp [h a ha]

theorem dropWhile_eq_self_of_charset (p : Char → Bool) (l : Str)
    (h : ∀ c ∈ l, p c = false) : l.dropWhile p = l := by
  cases l with
  | nil => rfl
  | cons c cs =>
    rw [List.dropWhile_cons]
    simp [h c (by simp)]

theorem sufC_append_ch (ch : Char) (l : Str) :
    stripAllSufC ch (l ++ [ch]) = stripAllSufC ch l := by
  simp [stripAllSufC, List.dropWhile_cons]

theorem sufC_eq_self (ch : Char) (l : Str) (h : ∀ c ∈ l, c ≠ ch) :
    stripAllSufC ch l = l := by
  unfold stripAllSufC
  rw [dropWhile_eq_self_of_charset _ _ (fun c hc => by
    simpa using h c (List.mem_reverse.mp hc))]
  exact List.reverse_reverse l

theorem sufC_append_ne (ch c : Char) (l : Str) (h : c ≠ ch) :
    stripAllSufC ch (l ++ [c]) = l ++ [c] := by
  unfold stripAllSufC
  rw [List.reverse_append]
  simp only [List.reverse_singleton, List.singleton_append, List.dropWhile_cons]
  simp [h]

theorem splitChar_nmem (sep : Char) (l : Str) (h : ∀ c ∈ l, c ≠ sep) :
    splitChar sep l = [l] := by
  induction l with
  | nil => rfl
  | cons c cs ih =>
    have hc := h c (by simp)
    rw [splitChar]
    simp only [hc, if_false]
    rw [ih (fun x hx => h x (by simp [hx]))]

theorem splitChar_ne_nil (sep : Char) (l : Str) : splitChar sep l ≠ [] := by
  cases l with
  | nil => simp [splitChar]
  | cons c cs =>
    rw [splitChar]
    by_cases h : c = sep
    · simp [h]
    · simp only [h, if_false]
      cases hs : splitChar sep cs with
      | nil => simp
      | cons a as => simp

theorem splitChar_append_sep (sep : Char) (l r : Str) (h : ∀ c ∈ l, c ≠ sep) :
    splitChar sep (l ++ sep :: r) = l :: splitChar sep r := by
  induction l with
  | nil =>
    simp only [List.nil_append]
    rw [splitChar]
    simp
  | cons c cs ih =>
    have hc := h c (by simp)
    simp only [List.cons_append]
    rw [splitChar]
    simp only [hc, if_false]
    rw [ih (fun x hx => h x (by simp [hx]))]

theorem stripAllPre_no_match (pat s : Str) (h : ¬(pat ≠ [] ∧ hasPre pat s = true)) :
    stripAllPre pat s = s := by
  rw [stripAllPre]
  simp [h]

theorem stripAllPre_step (pat rest : Str) (h : pat ≠ []) :
    stripAllPre pat (pat ++ rest) = stripAllPre pat rest := by
  rw [stripAllPre]
  rw [dif_pos ⟨h, hasPre_self_append pat rest⟩]
  congr 1
  exact List.drop_left pat rest

theorem strip_quoted (pat X : Str) (p' : Str) (hpat : pat = '"' :: p')
    (hlen : p' ≠ []) (hX : ∀ c ∈ X, c ≠ '"') :
    stripAllSufC '"' (stripAllPre pat (pat ++ (X ++ ['"']))) = X := by
  rw [stripAllPre_step pat (X ++ ['"']) (by simp [hpat])]
  rw [stripAllPre_no_match]
  · rw [sufC_append_ch, sufC_eq_self '"' X hX]
  · rintro ⟨-, h2⟩
    cases X with
    | nil =>
      have hle := hasPre_le pat ['"'] h2
      rw [hpat] at hle
      simp only [List.length_cons, List.length_nil] at hle
      have h0 : p'.length = 0 := by omega
      exact hlen (List.length_eq_zero.mp h0)
    | cons x xs =>
      rw [hpat] at h2
      simp only [List.cons_append, hasPre, Bool.and_eq_true] at h2
      have hx : ('"' : Char) = x := by simpa using h2.1
      exact hX x (by simp) hx.symm

theorem digitChar_isDigit (n : ℕ) (h : n < 10) : isDigit (digitChar n) = true := by
  interval_cases n <;> decide

theorem digitChar_toNat (n : ℕ) (h : n < 10) : (digitChar n).toNat = 48 + n := by
  interval_cases n <;> decide

theorem natToStr_charset (n : ℕ) : ∀ c ∈ natToStr n, isDigit c = true := by
  induction n using Nat.strong_induction_on with
  | _ n ih =>
    rw [natToStr]
    by_cases h : n < 10
    · simp only [dif_pos h]
      intro c hc
      simp only [List.mem_singleton] at hc
      subst hc
      exact digitChar_isDigit n h
    · simp only [dif_neg h]
      intro c hc
      rcases List.mem_append.mp hc with h2 | h2
      · exact ih (n / 10) (Nat.div_lt_self (by omega) (by omega)) c h2
      · simp only [List.mem_singleton] at h2
        subst h2
        exact digitChar_isDigit _ (Nat.mod_lt _ (by omega))

theorem natToStr_ne_nil (n : ℕ) : natToStr n ≠ [] := by
  rw [natToStr]
  by_cases h : n < 10 <;> simp [h]

theorem digitsVal_append_one (l : Str) (c : Char) :
    digitsVal (l ++ [c]) = 10 * digitsVal l + (c.toNat - 48) := by
  simp [digitsVal, List.foldl_append]

theorem digitsVal_natToStr (n : ℕ) : digitsVal (natToStr n) = n := by
  induction n using Nat.strong_induction_on with
  | _ n ih =>
    rw [natToStr]
    by_cases h : n < 10
    · simp only [dif_pos h]
      simp [digitsVal, digitChar_toNat n h]
    · simp only [dif_neg h]
      rw [digitsVal_append_one, ih (n / 10) (Nat.div_lt_self (by omega) (by omega)),
        digitChar_toNat _ (Nat.mod_lt _ (by omega))]
      omega

theorem intToStr_charset (z : ℤ) : ∀ c ∈ intToStr z, intCharOk c = true := by
  intro c hc
  unfold intToStr at hc
  by_cases h : z < 0
  · rw [if_pos h] at hc
    rcases List.mem_cons.mp hc with h2 | h2
    · subst h2
      decide
    · simp [intCharOk, natToStr_charset _ c h2]
  · rw [if_neg h] at hc
    simp [intCharOk, natToStr_charset _ c hc]

theorem i32Parse_intToStr (z : ℤ) (h1 : -(2 ^ 31) ≤ z) (h2 : z < 2 ^ 31) :
    i32Parse (intToStr z) = some z := by
  by_cases h : z < 0
  · have hz : intToStr z = '-' :: natToStr z.natAbs := if_pos h
    rw [hz]
    unfold i32Parse
    have hne := natToStr_ne_nil z.natAbs
    have hall : (natToStr z.natAbs).all isDigit = true :=
      List.all_eq_true.mpr (natToStr_charset _)
    have habs : (z.natAbs : ℤ) = -z := by omega
    simp [hne, hall, digitsVal_natToStr, habs, h1, h2]
    norm_num at h1 h2 ⊢
    exact ⟨h1, h2⟩
  · have hz : intToStr z = natToStr z.natAbs := if_neg h
    rw [hz]
    obtain ⟨c, cs, hn⟩ : ∃ c cs, natToStr z.natAbs = c :: cs := by
      cases hx : natToStr z.natAbs with
      | nil => exact absurd hx (natToStr_ne_nil _)
      | cons c cs => exact ⟨c, cs, rfl⟩
    have hcd : isDigit c = true := natToStr_charset z.natAbs c (by rw [hn]; simp)
    have hcp : c ≠ '+' := by
      intro he
      subst he
      exact absurd hcd (by decide)
    have hcm : c ≠ '-' := by
      intro he
      subst he
      exact absurd hcd (by decide)
    have hall : (c :: cs).all isDigit = true := by
      apply List.all_eq_true.mpr
      intro x hx
      exact natToStr_charset z.natAbs x (by rw [hn]; exact hx)
    have hdv : digitsVal (c :: cs) = z.natAbs := by
      rw [← hn, digitsVal_natToStr]
    have habs : (z.natAbs : ℤ) = z := by omega
    rw [hn]
    unfold i32Parse
    simp [hcp, hcm, hall, hdv, habs, h1, h2]
    norm_num at h1 h2 ⊢
    exact ⟨h1, h2⟩

theorem all_isDigit_false_of_dot (digs : Str) (hd : '.' ∈ digs) :
    digs.all isDigit = false := by
  cases hall : digs.all isDigit
  · rfl
  · have h := List.all_eq_true.mp hall '.' hd
    exact absurd h (by decide)

theorem i32Parse_dot_none (s : Str) (h : '.' ∈ s) : i32Parse s = none := by
  cases s with
  | nil => cases h
  | cons c cs =>
    unfold i32Parse
    simp only [List.head?_cons, List.tail_cons, Option.some.injEq]
    by_cases hc1 : c = '+'
    · have hdot : '.' ∈ cs := by
        rcases List.mem_cons.mp h with h2 | h2
        · exact absurd h2.symm (by subst hc1; decide)
        · exact h2
      simp [hc1, all_isDigit_false_of_dot cs hdot]
    · by_cases hc2 : c = '-'
      · have hdot : '.' ∈ cs := by
          rcases List.mem_cons.mp h with h2 | h2
          · exact absurd h2.symm (by subst hc2; decide)
          · exact h2
        simp [hc1, hc2, all_isDigit_false_of_dot cs hdot]
      · simp [hc1, hc2, all_isDigit_false_of_dot (c :: cs) h]

theorem float_render_eq (fd : ℚ → Str) (q : ℚ) :
    Value.render fd (.float q)
      = if (fd q).contains '.' then fd q else fd q ++ str ".0" := rfl

theorem float_render_charset (fd : ℚ → Str) (q : ℚ)
    (hq : ∀ c ∈ fd q, floatCharOk c = true) :
    ∀ c ∈ Value.render fd (.float q), floatCharOk c = true := by
  intro c hc
  rw [float_render_eq] at hc
  by_cases h : (fd q).contains '.'
  · rw [if_pos h] at hc
    exact hq c hc
  · rw [if_neg h] at hc
    rcases List.mem_append.mp hc with h2 | h2
    · exact hq c h2
    · rcases List.mem_cons.mp h2 with h3 | h3
      · subst h3
        decide
      · simp only [str, List.mem_singleton] at h3
        subst h3
        decide

theorem float_render_dot (fd : ℚ → Str) (q : ℚ) :
    '.' ∈ Value.render fd (.float q) := by
  rw [float_render_eq]
  by_cases h : (fd q).contains '.'
  · rw [if_pos h]
    simpa using h
  · rw [if_neg h]
    apply List.mem_append.mpr
    right
    simp [str]

theorem value_roundtrip (fd : ℚ → Str) (fp : Str → Option ℚ) (v : Value)
    (hv : ValueHyp fd fp v) :
    Value.parse fp (Value.render fd v) = .ok v := by
  cases v with
  | bool b => cases b <;> rfl
  | int z =>
    obtain ⟨h1, h2⟩ := hv
    have hz : Value.render fd (.int z) = intToStr z := rfl
    rw [hz]
    unfold Value.parse
    rw [if_neg (ne_of_mem_charset intCharOk (intToStr_charset z) (str "true")
        't' (by decide) (by decide)),
      if_neg (ne_of_mem_charset intCharOk (intToStr_charset z) (str "false")
        'f' (by decide) (by decide)),
      i32Parse_intToStr z h1 h2]
  | float q =>
    obtain ⟨hfp, hcs⟩ := hv
    have hset := float_render_charset fd q hcs
    unfold Value.parse
    rw [if_neg (ne_of_mem_charset floatCharOk hset (str "true") 't' (by decide) (by decide)),
      if_neg (ne_of_mem_charset floatCharOk hset (str "false") 'f' (by decide) (by decide)),
      i32Parse_dot_none _ (float_render_dot fd q), hfp]

theorem unit_roundtrip (u : Unit) : Unit.parse (Unit.render u) = .ok u := by
  cases u <;> rfl

theorem value_render_safe (fd : ℚ → Str) (fp : Str → Option ℚ) (v : Value)
    (hv : ValueHyp fd fp v) :
    ∀ c ∈ Value.render fd v, isWs c = false ∧ c ≠ ',' ∧ c ≠ '"' := by
  cases v with
  | bool b =>
    cases b
    · show ∀ c ∈ str "false", isWs c = false ∧ c ≠ ',' ∧ c ≠ '"'
      decide
    · show ∀ c ∈ str "true", isWs c = false ∧ c ≠ ',' ∧ c ≠ '"'
      decide
  | int z =>
    intro c hc
    have h := intCharOk_float c (intToStr_charset z c hc)
    exact ⟨floatCharOk_not_ws c h, floatCharOk_ne_comma c h, floatCharOk_ne_quote c h⟩
  | float q =>
    intro c hc
    have h := float_render_charset fd q hv.2 c hc
    exact ⟨floatCharOk_not_ws c h, floatCharOk_ne_comma c h, floatCharOk_ne_quote c h⟩

theorem unit_render_safe (u : Unit) :
    ∀ c ∈ Unit.render u, isWs c = false ∧ c ≠ ',' ∧ c ≠ '"' := by
  cases u <;> decide

theorem sufC_quote_brace (l : Str) :
    stripAllSufC rbrace (l ++ ['"', rbrace]) = l ++ ['"'] := by
  have h : l ++ ['"', rbrace] = (l ++ ['"']) ++ [rbrace] := by simp
  rw [h, sufC_append_ch, sufC_append_ne rbrace '"' l (by decide)]

theorem preC_lbrace (X : Str) (hX : X.head? = some '"') :
    stripAllPreC lbrace ([lbrace] ++ X) = X := by
  cases X with
  | nil => simp at hX
  | cons c cs =>
    simp only [List.head?_cons, Option.some.injEq] at hX
    subst hX
    simp [stripAllPreC, List.dropWhile_cons, lbrace]

/-- Decomposition of a serialised `Datum` by the parser's
whitespace-filter, brace-strip and comma-split pipeline into its three
quoted fields. -/
theorem datum_pieces (V U T : Str)
    (hVsafe : ∀ c ∈ V, isWs c = false ∧ c ≠ ',' ∧ c ≠ '"')
    (hUsafe : ∀ c ∈ U, isWs c = false ∧ c ≠ ',' ∧ c ≠ '"')
    (hTsafe : ∀ c ∈ T, isWs c = false ∧ c ≠ ',' ∧ c ≠ '"') :
    splitChar ','
      (stripAllSufC rbrace (stripAllPreC lbrace
        (([lbrace] ++ str "\"value\":\"" ++ V ++ str "\",\"unit\":\"" ++ U
          ++ str "\",\"timestamp\":\"" ++ T ++ ['"', rbrace]).filter
            (fun c => !(isWs c)))))
      = [str "\"value\":\"" ++ (V ++ ['"']),
         str "\"unit\":\"" ++ (U ++ ['"']),
         str "\"timestamp\":\"" ++ (T ++ ['"'])] := by
  have hVf : V.filter (fun c => !(isWs c)) = V :=
    filter_not_ws_eq_self V (fun c hc => (hVsafe c hc).1)
  have hUf : U.filter (fun c => !(isWs c)) = U :=
    filter_not_ws_eq_self U (fun c hc => (hUsafe c hc).1)
  have hTf : T.filter (fun c => !(isWs c)) = T :=
    filter_not_ws_eq_self T (fun c hc => (hTsafe c hc).1)
  have c1 : ([lbrace] : Str).filter (fun c => !(isWs c)) = [lbrace] := by decide
  have c2 : (str "\"value\":\"").filter (fun c => !(isWs c)) = str "\"value\":\"" := by
    decide
  have c3 : (str "\",\"unit\":\"").filter (fun c => !(isWs c)) = str "\",\"unit\":\"" := by
    decide
  have c4 : (str "\",\"timestamp\":\"").filter (fun c => !(isWs c))
      = str "\",\"timestamp\":\"" := by decide
  have c5 : (['"', rbrace] : Str).filter (fun c => !(isWs c)) = ['"', rbrace] := by
    decide
  rw [List.filter_append, List.filter_append, List.filter_append, List.filter_append,
    List.filter_append, List.filter_append, List.filter_append,
    c1, c2, c3, c4, c5, hVf, hUf, hTf]
  have e2 : [lbrace] ++ str "\"value\":\"" ++ V ++ str "\",\"unit\":\"" ++ U
      ++ str "\",\"timestamp\":\"" ++ T ++ ['"', rbrace]
      = [lbrace] ++ (str "\"value\":\"" ++ (V ++ (str "\",\"unit\":\"" ++ (U
        ++ (str "\",\"timestamp\":\"" ++ (T ++ ['"', rbrace])))))) := by
    simp [List.append_assoc]
  rw [e2, preC_lbrace _ (by simp [str])]
  have e3 : str "\"value\":\"" ++ (V ++ (str "\",\"unit\":\"" ++ (U
      ++ (str "\",\"timestamp\":\"" ++ (T ++ ['"', rbrace])))))
      = (str "\"value\":\"" ++ (V ++ (str "\",\"unit\":\"" ++ (U
        ++ (str "\",\"timestamp\":\"" ++ T))))) ++ ['"', rbrace] := by
    simp [List.append_assoc]
  rw [e3, sufC_quote_brace]
  have e4 : (str "\"value\":\"" ++ (V ++ (str "\",\"unit\":\"" ++ (U
      ++ (str "\",\"timestamp\":\"" ++ T))))) ++ ['"']
      = (str "\"value\":\"" ++ (V ++ ['"']))
        ++ ',' :: ((str "\"unit\":\"" ++ (U ++ ['"']))
          ++ ',' :: (str "\"timestamp\":\"" ++ (T ++ ['"']))) := by
    simp [str, List.append_assoc]
  rw [e4]
  have hP1 : ∀ c ∈ str "\"value\":\"" ++ (V ++ ['"']), c ≠ ',' := by
    have hlit : ∀ x ∈ str "\"value\":\"", x ≠ ',' := by decide
    intro c hc
    rcases List.mem_append.mp hc with h2 | h2
    · exact hlit c h2
    · rcases List.mem_append.mp h2 with h3 | h3
      · exact (hVsafe c h3).2.1
      · simp only [List.mem_singleton] at h3
        subst h3
        decide
  have hP2 : ∀ c ∈ str "\"unit\":\"" ++ (U ++ ['"']), c ≠ ',' := by
    have hlit : ∀ x ∈ str "\"unit\":\"", x ≠ ',' := by decide
    intro c hc
    rcases List.mem_append.mp hc with h2 | h2
    · exact hlit c h2
    · rcases List.mem_append.mp h2 with h3 | h3
      · exact (hUsafe c h3).2.1
      · simp only [List.mem_singleton] at h3
        subst h3
        decide
  have hP3 : ∀ c ∈ str "\"timestamp\":\"" ++ (T ++ ['"']), c ≠ ',' := by
    have hlit : ∀ x ∈ str "\"timestamp\":\"", x ≠ ',' := by decide
    intro c hc
    rcases List.mem_append.mp hc with h2 | h2
    · exact hlit c h2
    · rcases List.mem_append.mp h2 with h3 | h3
      · exact (hTsafe c h3).2.1
      · simp only [List.mem_singleton] at h3
        subst h3
        decide
  rw [splitChar_append_sep ',' _ _ hP1, splitChar_append_sep ',' _ _ hP2,
    splitChar_nmem ',' _ hP3]

/-- C7: parsing the serialised JSON form of any `Datum` returns exactly
that datum — value (Bool, Int32 in range, or Float32 through the
external float codec), unit, and RFC 3339 timestamp (through the
external chrono codec) are all recovered. -/
theorem c7_datum_roundtrip (fd : ℚ → Str) (fp : Str → Option ℚ)
    (td : ℤ → Str) (tp : Str → Option ℤ) (d : Datum)
    (hts1 : tp (td d.timestamp) = some d.timestamp)
    (hts2 : ∀ c ∈ td d.timestamp, tsCharOk c = true)
    (hv : ValueHyp fd fp d.value) :
    Datum.parse fp tp (Datum.render fd td d) = .ok d := by
  obtain ⟨v, u, ts⟩ := d
  dsimp only at hts1 hts2 hv ⊢
  have hpieces := datum_pieces (Value.render fd v) (Unit.render u) (td ts)
    (value_render_safe fd fp v hv) (unit_render_safe u)
    (fun c hc => ⟨tsCharOk_not_ws c (hts2 c hc), tsCharOk_ne_comma c (hts2 c hc),
      tsCharOk_ne_quote c (hts2 c hc)⟩)
  unfold Datum.parse Datum.render
  dsimp only
  rw [hpieces]
  dsimp only
  rw [strip_quoted (str "\"value\":\"") (Value.render fd v) (str "value\":\"")
      (by decide) (by decide) (fun c hc => (value_render_safe fd fp v hv c hc).2.2),
    strip_quoted (str "\"unit\":\"") (Unit.render u) (str "unit\":\"")
      (by decide) (by decide) (fun c hc => (unit_render_safe u c hc).2.2),
    strip_quoted (str "\"timestamp\":\"") (td ts) (str "timestamp\":\"")
      (by decide) (by decide)
      (fun c hc => tsCharOk_ne_quote c (hts2 c hc)),
    value_roundtrip fd fp v hv, unit_roundtrip u, hts1]
  rfl

/-- Witness for C7 at a concrete float datum, with the concrete codec
stand-ins for the external float and timestamp codecs. -/
theorem c7_datum_roundtrip_witness :
    Datum.parse fp0 tp0 (Datum.render fd0 td0 (Datum.new (Value.float 1) Unit.degreesC 0))
      = .ok (Datum.new (Value.float 1) Unit.degreesC 0) := by
  apply c7_datum_roundtrip fd0 fp0 td0 tp0
  · decide
  · decide
  · show fp0 (Value.render fd0 (.float 1)) = some 1 ∧ ∀ c ∈ fd0 1, floatCharOk c = true
    constructor
    · decide
    · decide

/-- Witness for C4 at the spec's concrete scenario: `GET /datum/unknown`
with no headers against an empty registry. -/
theorem c4_unknown_id_missing_headers_witness :
    handleGetDatum fd0 td0 sin0 0 (Message.requestGet (str "/datum/unknown")) []
      = .response (handlerFailure (unknownSensorMsg (str "unknown"))) [] := by
  have hx : extractDatumId (Message.requestGet (str "/datum/unknown")).startLine
      = str "unknown" := by
    simp [Message.requestGet, Message.request, Message.new, extractDatumId,
      stripAllPre, stripAllSuf, hasPre, str]
  have h :=
    (c4_unknown_id_missing_headers fd0 td0 sin0 0
      (Message.requestGet (str "/datum/unknown")) [] (by rw [hx]; rfl)
      (by simp [Message.requestGet, Message.request, Message.new, Message.header,
        hInsert, hLookup, strLtB, str])
      (by simp [Message.requestGet, Message.request, Message.new, Message.header,
        hInsert, hLookup, strLtB, str])).1
  rw [h, hx]

theorem readLine_append (l r : Str) (hl : '\n' ∉ l) :
    readLine (l ++ '\n' :: r) = (l ++ ['\n'], r) := by
  induction l with
  | nil => simp [readLine]
  | cons c cs ih =>
    have hc : ¬ c = '\n' := by
      intro he
      exact hl (by simp [he])
    have ih2 := ih (by
      intro hm
      exact hl (List.mem_cons_of_mem c hm))
    simp only [List.cons_append, readLine, if_neg hc]
    rw [show cs.append ('\n' :: r) = cs ++ '\n' :: r from rfl, ih2]

theorem dropWhile_append_of_all (p : Char → Bool) (a b : Str)
    (ha : ∀ c ∈ a, p c = true) : (a ++ b).dropWhile p = b.dropWhile p := by
  induction a with
  | nil => rfl
  | cons c cs ih =>
    simp only [List.cons_append, List.dropWhile_cons, ha c (by simp)]
    exact ih (fun x hx => ha x (by simp [hx]))

theorem trimEnd_append_ws (l w : Str) (hw : ∀ c ∈ w, isWs c = true) :
    trimEnd (l ++ w) = trimEnd l := by
  unfold trimEnd
  rw [List.reverse_append]
  rw [dropWhile_append_of_all isWs w.reverse l.reverse
    (fun c hc => hw c (List.mem_reverse.mp hc))]

theorem trimStr_append_crlf (l : Str) : trimStr (l ++ str "\r\n") = trimStr l := by
  unfold trimStr
  rw [trimEnd_append_ws l (str "\r\n") (by decide)]

theorem utf8Len_append (a b : Str) : utf8Len (a ++ b) = utf8Len a + utf8Len b := by
  simp [utf8Len]

theorem charBytes_pos (c : Char) : 0 < charBytes c := by
  unfold charBytes
  split_ifs <;> omega

theorem utf8Len_cons (c : Char) (l : Str) :
    utf8Len (c :: l) = charBytes c + utf8Len l := by
  simp [utf8Len]

theorem strLtB_asymm (a b : Str) (h : strLtB a b = true) : strLtB b a = false := by
  induction a generalizing b with
  | nil =>
    cases b with
    | nil => simp [strLtB] at h
    | cons x xs => simp [strLtB]
  | cons x xs ih =>
    cases b with
    | nil => simp [strLtB] at h
    | cons y ys =>
      by_cases hxy : x = y
      · subst hxy
        simp only [strLtB, if_pos rfl] at h ⊢
        exact ih ys h
      · simp only [strLtB, if_neg hxy, decide_eq_true_eq] at h
        have hyx : ¬ y = x := fun he => hxy he.symm
        simp only [strLtB, if_neg hyx, decide_eq_false_iff_not]
        omega

theorem strLtB_ne (a b : Str) (h : strLtB a b = true) : a ≠ b := by
  intro he
  subst he
  induction a with
  | nil => simp [strLtB] at h
  | cons x xs ih =>
    simp only [strLtB, if_pos rfl] at h
    exact ih h

theorem natParse_natToStr (n : ℕ) : natParse (natToStr n) = some n := by
  unfold natParse
  have h1 : natToStr n ≠ [] := natToStr_ne_nil n
  have h2 : (natToStr n).all isDigit = true := List.all_eq_true.mpr (natToStr_charset n)
  simp [h1, h2, digitsVal_natToStr]

theorem takeBytes_exact (b r : Str) : takeBytes (utf8Len b) (b ++ r) = some (b, r) := by
  unfold takeBytes
  induction b generalizing r with
  | nil =>
    rw [takeBytesGo.eq_def]
    simp [utf8Len]
  | cons c cs ih =>
    rw [takeBytesGo.eq_def]
    have hpos := charBytes_pos c
    have hne : ¬ (utf8Len (c :: cs) = 0) := by
      rw [utf8Len_cons]
      omega
    have hle : charBytes c ≤ utf8Len (c :: cs) := by
      rw [utf8Len_cons]
      omega
    simp only [List.cons_append, if_neg hne, if_pos hle]
    have harg : utf8Len (c :: cs) - charBytes c = utf8Len cs := by
      rw [utf8Len_cons]
      omega
    rw [harg, ih r]
    rfl

theorem hasSub_suffix (pat k : Str) (hn : hasSub pat k = false) :
    ∀ t, t <:+ k → hasPre pat t = false := by
  induction k with
  | nil =>
    intro t ht
    rw [List.suffix_nil.mp ht]
    exact hn
  | cons c cs ih =>
    simp only [hasSub, Bool.or_eq_false_iff] at hn
    intro t ht
    rcases List.suffix_cons_iff.mp ht with h2 | h2
    · rw [h2]
      exact hn.1
    · exact ih hn.2 t h2

theorem colon_scan (k rest : Str) (hn : hasSub (str ": ") k = false) :
    ∀ t, t <:+ k → t ≠ [] → hasPre (str ": ") (t ++ (str ": " ++ rest)) = false := by
  intro t hsuf hne
  cases t with
  | nil => exact absurd rfl hne
  | cons a t' =>
    cases t' with
    | nil =>
      show hasPre (str ": ") ([a] ++ (str ": " ++ rest)) = false
      simp [hasPre, str]
    | cons b t'' =>
      have h2 := hasSub_suffix (str ": ") k hn (a :: b :: t'') hsuf
      simp only [str] at h2 ⊢
      simp only [List.cons_append, hasPre, Bool.and_eq_true, Bool.and_eq_false_iff] at h2 ⊢
      simpa using h2

theorem splitOnce_exact (pat k rest : Str) (hpat : pat ≠ [])
    (hscan : ∀ t, t <:+ k → t ≠ [] → hasPre pat (t ++ (pat ++ rest)) = false) :
    splitOnce pat (k ++ (pat ++ rest)) = some (k, rest) := by
  induction k with
  | nil =>
    simp only [List.nil_append]
    cases hp : pat with
    | nil => exact absurd hp hpat
    | cons p ps =>
      rw [← hp]
      have hx : pat ++ rest = p :: (ps ++ rest) := by rw [hp]; rfl
      rw [hx]
      rw [splitOnce]
      rw [← hx]
      rw [if_pos (hasPre_self_append pat rest)]
      rw [List.drop_left pat rest]
  | cons c cs ih =>
    have hfirst : hasPre pat (c :: (cs ++ (pat ++ rest))) = false := by
      have h0 := hscan (c :: cs) (List.suffix_refl _) (by simp)
      simpa using h0
    have ihx := ih (fun t ht hne => hscan t (ht.trans (List.suffix_cons c cs)) hne)
    show splitOnce pat (c :: (cs ++ (pat ++ rest))) = some (c :: cs, rest)
    simp only [splitOnce, List.append_eq, hfirst, Bool.false_eq_true, if_false]
    rw [ihx]

theorem headersStr_eq_concatLines (hs : Headers) (hne : hs ≠ []) :
    joinSep (str "\r\n") (hs.map (fun kv => kv.1 ++ str ": " ++ kv.2)) ++ str "\r\n"
      = concatLines hs := by
  induction hs with
  | nil => exact absurd rfl hne
  | cons kv rest ih =>
    cases rest with
    | nil => simp [joinSep, concatLines, headerLine, List.append_assoc]
    | cons kv2 rest2 =>
      have ih2 := ih (by simp)
      simp only [List.map_cons] at ih2 ⊢
      rw [show concatLines (kv :: kv2 :: rest2)
        = headerLine kv ++ concatLines (kv2 :: rest2) from rfl, ← ih2]
      simp only [joinSep]
      simp [headerLine, List.append_assoc]

theorem concatLines_length_ge (hs : Headers) :
    hs.length ≤ (concatLines hs).length := by
  induction hs with
  | nil => simp [concatLines]
  | cons kv rest ih =>
    simp only [concatLines, List.length_append, List.length_cons]
    have h1 : (str ": ").length = 2 := by decide
    have h2 : (str "\r\n").length = 2 := by decide
    have h3 : 1 ≤ (headerLine kv).length := by
      simp only [headerLine, List.length_append, h1, h2]
      omega
    omega

theorem hInsert_append_gt (k v : Str) (acc : Headers)
    (hacc : ∀ kv ∈ acc, strLtB kv.1 k = true) :
    hInsert k v acc = acc ++ [(k, v)] := by
  induction acc with
  | nil => rfl
  | cons e rest ih =>
    obtain ⟨k', v'⟩ := e
    have he : strLtB k' k = true := hacc (k', v') (by simp)
    have hne : ¬ k = k' := Ne.symm (strLtB_ne k' k he)
    have hlt : strLtB k k' = false := strLtB_asymm k' k he
    simp only [hInsert, if_neg hne, hlt, Bool.false_eq_true, if_false]
    rw [ih (fun kv hkv => hacc kv (by simp [hkv]))]
    simp

theorem foldl_hInsert_sorted (hs : Headers) (acc : Headers)
    (h : hdrSorted (acc ++ hs)) :
    hs.foldl (fun a kv => hInsert kv.1 kv.2 a) acc = acc ++ hs := by
  induction hs generalizing acc with
  | nil => simp
  | cons kv rest ih =>
    have hlt : ∀ e ∈ acc, strLtB e.1 kv.1 = true := by
      intro e he
      exact (List.pairwise_append.mp h).2.2 e he kv (by simp)
    simp only [List.foldl_cons]
    rw [show hInsert kv.1 kv.2 acc = acc ++ [(kv.1, kv.2)] from
      hInsert_append_gt _ _ acc hlt]
    have h2 : hdrSorted ((acc ++ [(kv.1, kv.2)]) ++ rest) := by
      unfold hdrSorted at h ⊢
      simpa [List.append_assoc] using h
    rw [ih (acc ++ [(kv.1, kv.2)]) h2]
    simp

theorem sortPairs_sorted_id (hs : Headers) (h : hdrSorted hs) : sortPairs hs = hs := by
  induction hs with
  | nil => rfl
  | cons p rest ih =>
    have h1 : hdrSorted rest := (List.pairwise_cons.mp h).2
    simp only [sortPairs]
    rw [ih h1]
    cases rest with
    | nil => rfl
    | cons q rest2 =>
      have hpq : strLtB p.1 q.1 = true := (List.pairwise_cons.mp h).1 q (by simp)
      simp [sortPairsInsert, hpq]

theorem filter_hInsert_false (p : Str × Str → Bool) (k v : Str) (hs : Headers)
    (hp : ∀ w, p (k, w) = false) :
    (hInsert k v hs).filter p = hs.filter p := by
  induction hs with
  | nil => simp [hInsert, List.filter_cons, hp]
  | cons e rest ih =>
    obtain ⟨k', v'⟩ := e
    by_cases h1 : k = k'
    · subst h1
      simp [hInsert, List.filter_cons, hp]
    · by_cases h2 : strLtB k k' = true
      · simp [hInsert, h1, h2, List.filter_cons, hp]
      · simp [hInsert, h1, h2, List.filter_cons, ih]

theorem readHeadersGo_chunk (hs : Headers) (tail : Str) (acc : Headers) (fuel : ℕ)
    (hfuel : hs.length < fuel)
    (hwf : ∀ kv ∈ hs, headerWf kv) :
    readHeadersGo fuel (concatLines hs ++ (str "\r\n" ++ tail)) acc
      = (hs.foldl (fun a kv => hInsert kv.1 kv.2 a) acc, tail) := by
  induction hs generalizing acc fuel with
  | nil =>
    cases fuel with
    | zero => omega
    | succ f =>
      show readHeadersGo (f + 1) ([] ++ (str "\r\n" ++ tail)) acc = (acc, tail)
      simp only [List.nil_append]
      have hrl : readLine (str "\r\n" ++ tail) = (str "\r\n", tail) := by
        have h0 := readLine_append ['\r'] tail (by decide)
        simpa [str] using h0
      simp only [readHeadersGo, hrl]
      rw [if_neg (by decide)]
  | cons kv rest ih =>
    cases fuel with
    | zero => omega
    | succ f =>
      obtain ⟨hk_trim, hv_trim, hk_nl, hv_nl, hk_sub⟩ := hwf kv (by simp)
      have hline : concatLines (kv :: rest) ++ (str "\r\n" ++ tail)
          = (kv.1 ++ (str ": " ++ (kv.2 ++ ['\r'])))
            ++ '\n' :: (concatLines rest ++ (str "\r\n" ++ tail)) := by
        simp [concatLines, headerLine, str, List.append_assoc]
      have hnl : '\n' ∉ kv.1 ++ (str ": " ++ (kv.2 ++ ['\r'])) := by
        intro hm
        rcases List.mem_append.mp hm with h2 | h2
        · exact hk_nl h2
        · rcases List.mem_append.mp h2 with h3 | h3
          · revert h3
            decide
          · rcases List.mem_append.mp h3 with h4 | h4
            · exact hv_nl h4
            · revert h4
              decide
      have hrl := readLine_append (kv.1 ++ (str ": " ++ (kv.2 ++ ['\r'])))
        (concatLines rest ++ (str "\r\n" ++ tail)) hnl
      have hline2 : (kv.1 ++ (str ": " ++ (kv.2 ++ ['\r']))) ++ ['\n']
          = kv.1 ++ (str ": " ++ (kv.2 ++ str "\r\n")) := by
        simp [str, List.append_assoc]
      have hsplit : splitOnce (str ": ")
          ((kv.1 ++ (str ": " ++ (kv.2 ++ ['\r']))) ++ ['\n'])
          = some (kv.1, kv.2 ++ str "\r\n") := by
        rw [hline2]
        exact splitOnce_exact (str ": ") kv.1 (kv.2 ++ str "\r\n") (by decide)
          (colon_scan kv.1 (kv.2 ++ str "\r\n") hk_sub)
      have hlen : 2 < utf8Len ((kv.1 ++ (str ": " ++ (kv.2 ++ ['\r']))) ++ ['\n']) := by
        simp only [utf8Len_append]
        have e1 : utf8Len (str ": ") = 2 := by decide
        have e2 : utf8Len (['\r'] : Str) = 1 := by decide
        have e3 : utf8Len (['\n'] : Str) = 1 := by decide
        omega
      rw [hline]
      simp only [readHeadersGo, hrl, if_pos hlen, hsplit]
      rw [hk_trim, trimStr_append_crlf, hv_trim]
      have hf2 : rest.length < f := by
        simp only [List.length_cons] at hfuel
        omega
      rw [ih (hInsert kv.1 kv.2 acc) f hf2 (fun e he => hwf e (by simp [he]))]
      rw [List.foldl_cons]

/-- C6 (amended): for every message whose start line is newline-free and
trim-stable, whose headers are canonically sorted, individually
trim-stable, newline-free and without `": "` inside their keys, and
whose `Content-Length` header is present exactly when a body is and
equals the body's UTF-8 byte length, reading back the serialised message
recovers the start line, every header, and the body exactly, up to the
codec-added `Content-Type` and `Content-Length` headers. -/
theorem c6_message_roundtrip (m : Message)
    (hnl : '\n' ∉ m.startLine)
    (htrim : trimStr m.startLine = m.startLine)
    (hsorted : hdrSorted m.headers)
    (hwf : ∀ kv ∈ m.headers, headerWf kv)
    (hcl : match m.body with
      | none => hLookup (str "Content-Length") m.headers = none
      | some b =>
        hLookup (str "Content-Length") m.headers = some (natToStr (utf8Len b))) :
    Message.read (Message.write m)
      = some (Message.new m.startLine m.headers m.body) ∧
    stripCodec (Message.new m.startLine m.headers m.body) = stripCodec m := by
  obtain ⟨sl, hs, body⟩ := m
  dsimp only at hnl htrim hsorted hwf hcl
  constructor
  · -- the round trip itself
    have hnl2 : '\n' ∉ sl ++ ['\r'] := by
      intro hm
      rcases List.mem_append.mp hm with h2 | h2
      · exact hnl h2
      · revert h2
        decide
    have hsort : sortPairs hs = hs := sortPairs_sorted_id hs hsorted
    have hfold : hs.foldl (fun a kv => hInsert kv.1 kv.2 a) [] = hs := by
      have h0 := foldl_hInsert_sorted hs [] (by simpa using hsorted)
      simpa using h0
    have htrim2 : trimStr ((sl ++ ['\r']) ++ ['\n']) = sl := by
      have e1 : (sl ++ ['\r']) ++ ['\n'] = sl ++ str "\r\n" := by
        simp [str]
      rw [e1, trimStr_append_crlf, htrim]
    -- per-case stream shape after the first line
    cases body with
    | none =>
      have hcln : hLookup (str "Content-Length") hs = none := hcl
      rcases hhs : hs with _ | ⟨kv0, hs'⟩
      · -- no headers: the headers string is a lone CRLF
        have hw : Message.write ⟨sl, [], none⟩
            = (sl ++ ['\r']) ++ '\n' :: (concatLines [] ++ (str "\r\n" ++ str "\r\n")) := by
          unfold Message.write
          simp [htrim, joinSep, concatLines, str, List.append_assoc]
        unfold Message.read
        rw [hw, readLine_append _ _ hnl2]
        dsimp only
        rw [readHeadersGo_chunk [] (str "\r\n") [] _ (by decide) (by simp)]
        simp only [List.foldl_nil, hLookup, htrim2]
      · -- at least one header
        have hcat := headersStr_eq_concatLines hs (by rw [hhs]; simp)
        have hw : Message.write ⟨sl, hs, none⟩
            = (sl ++ ['\r']) ++ '\n' :: (concatLines hs ++ (str "\r\n" ++ [])) := by
          unfold Message.write
          rw [hsort]
          rw [htrim]
          rw [← hcat]
          simp [str, List.append_assoc]
        rw [← hhs]
        unfold Message.read
        rw [hw, readLine_append _ _ hnl2]
        dsimp only
        rw [readHeadersGo_chunk hs [] [] _ (by
            have h0 := concatLines_length_ge hs
            have h2 : (str "\r\n").length = 2 := by decide
            simp only [List.length_append, h2]
            omega)
          hwf]
        simp only [List.foldl_nil]
        rw [hfold]
        simp only [hcln, htrim2]
    | some b =>
      have hlk : hLookup (str "Content-Length") hs = some (natToStr (utf8Len b)) := hcl
      have hhs : hs ≠ [] := by
        intro he
        rw [he] at hlk
        simp [hLookup] at hlk
      have hcat := headersStr_eq_concatLines hs hhs
      have hw : Message.write ⟨sl, hs, some b⟩
          = (sl ++ ['\r']) ++ '\n'
            :: (concatLines hs ++ (str "\r\n" ++ (b ++ (str "\r\n" ++ str "\r\n")))) := by
        unfold Message.write
        rw [hsort, htrim, ← hcat]
        simp [str, List.append_assoc]
      unfold Message.read
      rw [hw, readLine_append _ _ hnl2]
      dsimp only
      rw [readHeadersGo_chunk hs (b ++ (str "\r\n" ++ str "\r\n")) [] _ (by
          have h0 := concatLines_length_ge hs
          have h2 : (str "\r\n").length = 2 := by decide
          simp only [List.length_append, h2]
          omega)
        hwf]
      simp only [List.foldl_nil]
      rw [hfold]
      simp only [hlk, natParse_natToStr, takeBytes_exact, htrim2]
  · -- equality modulo the codec headers
    unfold Message.new stripCodec
    simp only
    rw [filter_hInsert_false _ _ _ _ (by
      intro w
      simp)]

/-- Witness for C6's amended claim at a concrete `GET /` request. -/
theorem c6_message_roundtrip_witness :
    Message.read (Message.write (Message.requestGet (str "/")))
      = some (Message.new (Message.requestGet (str "/")).startLine
          (Message.requestGet (str "/")).headers
          (Message.requestGet (str "/")).body) := by
  refine (c6_message_roundtrip (Message.requestGet (str "/")) (by decide) (by decide)
    ?_ ?_ ?_).1
  · unfold hdrSorted
    simp [Message.requestGet, Message.request, Message.new, hInsert]
  · intro kv hkv
    simp only [Message.requestGet, Message.request, Message.new, hInsert,
      List.mem_singleton] at hkv
    subst hkv
    unfold headerWf
    refine ⟨by decide, by decide, by decide, by decide, by decide⟩
  · show hLookup (str "Content-Length") (Message.requestGet (str "/")).headers = none
    decide

/-- C6 counterexample: a header value that is plain ASCII but ends in a
space is trimmed by the reader, so `read(write(m))` differs from `m`
even modulo the codec-added headers — the claim as stated fails. -/
theorem c6_message_roundtrip_cex :
    (Message.read (Message.write c6Cex)).map stripCodec ≠ some (stripCodec c6Cex) ∧
    (Message.read (Message.write c6Cex)).map (fun m2 => m2.header (str "foo"))
      = some (some (str "bar")) ∧
    c6Cex.header (str "foo") = some (str "bar ") := by
  refine ⟨by decide, by decide, by decide⟩

end Mvp
